import Mathlib

/-!
Shallow embedding of the authentication engine and cron scheduler of the
esp8266-rest-firmware repository, together with theorems settling the
specification claims about them.

Sources embedded:
  - `Crypto.cpp` (hex encoding/decoding, constant-time compare),
  - `Auth.cpp` (the challenge-slot pool, `authGenerateChallenge`, `authVerify`),
  - `ApiContext.cpp` (`checkAuth`) and its call sites in `ApiHandle.cpp`,
  - `CronScheduler.cpp` (`cronFieldMatch`, `cronMatch`, `setCronJob`,
    `cronSchedulerLoop`) and `DeviceController.cpp` (`deviceGet`, `deviceSet`).

Machine integers are modelled as `Nat` with explicit reduction modulo `2 ^ 32`
where 32-bit wraparound matters.  C strings are `List Char`, byte buffers are
`List Nat`.  External collaborators that are not part of the repository
(BearSSL's HMAC-SHA256, libc's `localtime`, the hardware pin reads and the
storage layer's success flag) are passed in as explicit parameters, exactly at
the points where the firmware calls out to them.  Fallible or crashing code
paths (the unchecked `deviceGet` pointer dereference in the scheduler loop)
are modelled with `Option`.
-/

namespace EspFw

/-! ## 32-bit arithmetic helpers -/

/-- `2 ^ 32`, the modulus of the firmware's `uint32_t` arithmetic. -/
def U32 : Nat := 4294967296

/-- C unsigned 32-bit subtraction `a - b` (wraparound). -/
def sub32 (a b : Nat) : Nat := ((a % U32) + U32 - (b % U32)) % U32

/-- Reinterpret a `uint32_t` value as `int32_t` (the `(int32_t)` cast). -/
def u32ToI32 (n : Nat) : Int :=
  if n % U32 ≥ 2147483648 then (n % U32 : Int) - (U32 : Int) else (n % U32 : Int)

/-- Reduce an `Int` into `uint32_t` range (C conversion to unsigned). -/
def intToU32 (i : Int) : Nat := (i % (U32 : Int)).toNat

/-! ## Crypto.cpp: hex encoding, hex decoding, constant-time compare -/

/-- The `hexMap` table `"0123456789abcdef"` of `bytesToHex`. -/
def hexMapChars : List Char := "0123456789abcdef".data

/-- One output character of `bytesToHex`: `hexMap[n]` for a nibble `n`. -/
def nibbleChar (n : Nat) : Char := hexMapChars.getD n '0'

/-- `bytesToHex` of `Crypto.cpp`: each byte becomes `hexMap[(b >> 4) & 0xF]`
followed by `hexMap[b & 0xF]`. -/
def bytesToHex (bs : List Nat) : List Char :=
  bs.foldr (fun b acc =>
    nibbleChar ((b >>> 4) &&& 15) :: nibbleChar (b &&& 15) :: acc) []

/-- `hexToNibble` of `Crypto.cpp`; `255` (= `0xFF`) signals a non-hex char. -/
def hexToNibble (c : Char) : Nat :=
  if '0' ≤ c ∧ c ≤ '9' then c.toNat - 48
  else if 'a' ≤ c ∧ c ≤ 'f' then c.toNat - 97 + 10
  else if 'A' ≤ c ∧ c ≤ 'F' then c.toNat - 65 + 10
  else 255

/-- `hexToBytes(hex, out, outLen)` of `Crypto.cpp`: decodes `outLen` bytes from
the hex string; `none` models the `false` return on a non-hex character (a
string shorter than `2 * outLen` runs into the NUL terminator, which is also a
non-hex character). -/
def hexToBytes : List Char → Nat → Option (List Nat)
  | _, 0 => some []
  | c1 :: c2 :: rest, n + 1 =>
    let hi := hexToNibble c1
    let lo := hexToNibble c2
    if hi = 255 ∨ lo = 255 then none
    else (hexToBytes rest n).map (fun bs => (hi * 16 + lo) :: bs)
  | _, _ + 1 => none

/-- `secureCompare(a, b, len)` of `Crypto.cpp`: or-accumulate the xor of each
byte pair, succeed iff the accumulator stays zero. -/
def secureCompare (a b : List Nat) (len : Nat) : Bool :=
  ((List.range len).foldl
    (fun d i => d ||| ((a.getD i 0) ^^^ (b.getD i 0))) 0) == 0

/-! ## Auth.cpp: slot pool, challenge generation, verification -/

/-- `MAX_AUTH_SLOTS` of `Auth.h`. -/
def MAX_AUTH_SLOTS : Nat := 8

/-- `AUTH_KEY_LEN` of `Auth.cpp`. -/
def AUTH_KEY_LEN : Nat := 32

/-- `NONCE_TIMEOUT_MS` of `Auth.cpp` (milliseconds). -/
def NONCE_TIMEOUT_MS : Nat := 50000

/-- `AuthSlot` of `Auth.h`.  The client IP is an opaque identity, modelled as
`Nat` (`IPAddress()` default-constructs to `0`). -/
structure AuthSlot where
  ip : Nat
  nonce : Nat
  timestamp : Nat
  active : Bool
deriving DecidableEq, Repr, Inhabited

/-- The slot value produced by `clearSlot`. -/
def clearedSlot : AuthSlot := ⟨0, 0, 0, false⟩

/-- Scan of `findSlotByIp`, carrying the current index. -/
def findSlotByIpAux (ip : Nat) : List AuthSlot → Nat → Option Nat
  | [], _ => none
  | s :: rest, i =>
    if s.active ∧ s.ip = ip then some i else findSlotByIpAux ip rest (i + 1)

/-- `findSlotByIp` of `Auth.cpp`: first index holding an active slot for this
identity, `none` for the C return value `-1`. -/
def findSlotByIp (slots : List AuthSlot) (ip : Nat) : Option Nat :=
  findSlotByIpAux ip slots 0

/-- Scan of `findFreeSlot`, carrying the current index. -/
def findFreeSlotAux : List AuthSlot → Nat → Option Nat
  | [], _ => none
  | s :: rest, i => if s.active then findFreeSlotAux rest (i + 1) else some i

/-- `findFreeSlot` of `Auth.cpp`: first inactive index, `none` for `-1`. -/
def findFreeSlot (slots : List AuthSlot) : Option Nat := findFreeSlotAux slots 0

/-- Scan of `findOldestSlot` from index 1 with the running minimum. -/
def findOldestSlotAux : List AuthSlot → Nat → Nat → Nat → Nat
  | [], _, idx, _ => idx
  | s :: rest, i, idx, oldest =>
    if s.timestamp < oldest then findOldestSlotAux rest (i + 1) i s.timestamp
    else findOldestSlotAux rest (i + 1) idx oldest

/-- `findOldestSlot` of `Auth.cpp`: index of the smallest timestamp (first one
on ties; starts from slot 0 the way the C loop does). -/
def findOldestSlot (slots : List AuthSlot) : Nat :=
  match slots with
  | [] => 0
  | s0 :: rest => findOldestSlotAux rest 1 0 s0.timestamp

/-- The `snprintf(nonceBuf, 11, "%lu", nonce)` decimal rendering, digit
recursion bounded by the 10-digit maximum of a `uint32_t`. -/
def decDigitsAux : Nat → Nat → List Char
  | 0, _ => []
  | fuel + 1, n =>
    if n = 0 then []
    else decDigitsAux fuel (n / 10) ++ [Char.ofNat (48 + n % 10)]

/-- Decimal string of a nonce (`"%lu"`). -/
def u32Dec (n : Nat) : List Char :=
  if n = 0 then ['0'] else decDigitsAux 11 n

/-- The byte view of a C string (`(const uint8_t *)data`). -/
def strBytes (s : List Char) : List Nat := s.map Char.toNat

/-- `authGenerateChallenge` of `Auth.cpp`, with the two external inputs
(`os_random()` and `millis()`) passed in.  Returns the stored nonce and the
updated slot pool. -/
def authGenerateChallenge (slots : List AuthSlot) (clientIp nonceVal nowMs : Nat) :
    Nat × List AuthSlot :=
  let idx :=
    match findSlotByIp slots clientIp with
    | some i => i
    | none =>
      match findFreeSlot slots with
      | some i => i
      | none => findOldestSlot slots
  (nonceVal, slots.set idx ⟨clientIp, nonceVal, nowMs, true⟩)

/-- `authVerify` of `Auth.cpp`.  `hmac` is the BearSSL HMAC-SHA256 collaborator
(key bytes and message bytes to 32 mac bytes), `key` the cached `authKey`,
`nowMs` the `millis()` reading.  Returns the C `bool` and the slot pool after
the call (the C code mutates `authSlots` in place). -/
def authVerify (hmac : List Nat → List Nat → List Nat) (key : List Nat)
    (nowMs : Nat) (slots : List AuthSlot) (clientIp nonce : Nat)
    (uri payload signature : List Char) : Bool × List AuthSlot :=
  match findSlotByIp slots clientIp with
  | none => (false, slots)
  | some i =>
    let slot := slots.getD i clearedSlot
    if ¬(slot.active ∧ slot.nonce = nonce) then (false, slots)
    else if sub32 nowMs slot.timestamp > NONCE_TIMEOUT_MS then
      (false, slots.set i clearedSlot)
    else if signature.length ≠ 64 then (false, slots.set i clearedSlot)
    else
      let nonceBuf := u32Dec nonce
      let dataLen := nonceBuf.length + uri.length + payload.length
      if dataLen > 1024 then (false, slots.set i clearedSlot)
      else
        let data := nonceBuf ++ uri ++ payload
        let expectedMac := hmac key (strBytes data)
        match hexToBytes signature 32 with
        | none => (false, slots.set i clearedSlot)
        | some clientMac =>
          (secureCompare expectedMac clientMac AUTH_KEY_LEN,
           slots.set i clearedSlot)

/-- The slot pool right after `authInit` (all slots cleared). -/
def authInitSlots : List AuthSlot := List.replicate MAX_AUTH_SLOTS clearedSlot

/-- A sequence of challenge requests: each triple is a client identity, the
`os_random()` value and the `millis()` reading of one `authGenerateChallenge`
call. -/
def challengeSeq (triples : List (Nat × Nat × Nat)) (slots : List AuthSlot) :
    List AuthSlot :=
  triples.foldl (fun st t => (authGenerateChallenge st t.1 t.2.1 t.2.2).2) slots

/-! ## ApiContext.cpp: checkAuth and its JsonDocument argument -/

/-- The `JsonDocument` values visible to `checkAuth`: either the
default-constructed null document (what every handler in `ApiHandle.cpp`
passes) or an object with raw-serialised members. -/
inductive JsonDoc where
  | null : JsonDoc
  | obj (fields : List (List Char × List Char)) : JsonDoc
deriving DecidableEq, Repr

/-- `doc.isNull()`. -/
def JsonDoc.isNull : JsonDoc → Bool
  | .null => true
  | .obj _ => false

/-- `doc.size()` (member count of an object document). -/
def JsonDoc.size : JsonDoc → Nat
  | .null => 0
  | .obj fs => fs.length

/-- Member list rendering of `serializeJson` for an object document. -/
def serializeFields : List (List Char × List Char) → List Char
  | [] => []
  | [(k, v)] => '"' :: (k ++ ('"' :: ':' :: v))
  | (k, v) :: rest => '"' :: (k ++ ('"' :: ':' :: v)) ++ ',' :: serializeFields rest

/-- `serializeJson` of ArduinoJson, restricted to the document shapes above. -/
def serializeJsonDoc : JsonDoc → List Char
  | .null => "null".data
  | .obj fs => Char.ofNat 123 :: serializeFields fs ++ [Char.ofNat 125]

/-- `isDigit`. -/
def isDigitC (c : Char) : Bool := decide ('0' ≤ c) && decide (c ≤ '9')

/-- `isspace`. -/
def isSpaceC (c : Char) : Bool :=
  c = ' ' || c = '\t' || c = '\n' || c = '\x0b' || c = '\x0c' || c = '\r'

/-- Leading-whitespace skip of `atol`. -/
def skipSpaces : List Char → List Char
  | [] => []
  | c :: rest => if isSpaceC c then skipSpaces rest else c :: rest

/-- Digit-prefix accumulation of `atol`: consume digits, stop at the first
non-digit. -/
def parseDigitsAcc : List Char → Int → Int
  | [], acc => acc
  | c :: rest, acc =>
    if isDigitC c then parseDigitsAcc rest (acc * 10 + ((c.toNat : Int) - 48))
    else acc

/-- `atol`/`atoi` (also the behaviour of Arduino `String::toInt`): skip
whitespace, optional sign, then a digit prefix; `0` if no digits. -/
def atol (s : List Char) : Int :=
  match skipSpaces s with
  | [] => 0
  | c :: rest =>
    if c = '-' then - parseDigitsAcc rest 0
    else if c = '+' then parseDigitsAcc rest 0
    else parseDigitsAcc (c :: rest) 0

/-- An HTTP request as seen by `checkAuth`: the literal URI and body plus the
two authentication headers (absent headers model `hasHeader` = false). -/
structure ApiRequest where
  uri : List Char
  body : List Char
  clientIp : Nat
  nonceHeader : Option (List Char)
  authHeader : Option (List Char)
deriving DecidableEq, Repr

/-- The payload string built by `checkAuth` (`ApiContext.cpp` lines 46–53):
serialize the handler-supplied document if it is a non-null, non-empty
document, otherwise the empty string. -/
def checkAuthPayload (doc : JsonDoc) : List Char :=
  if ¬doc.isNull ∧ doc.size > 0 then serializeJsonDoc doc else []

/-- Result of `checkAuth`: the boolean outcome, the slot pool afterwards, and
the payload that was handed to `authVerify` (`none` when `authVerify` was
never reached). -/
structure CheckAuthResult where
  ok : Bool
  slots : List AuthSlot
  verifiedPayload : Option (List Char)
deriving DecidableEq, Repr

/-- `checkAuth` of `ApiContext.cpp`.  `doc` is the `JsonDocument` argument the
handler passes (every call site in `ApiHandle.cpp` passes `JsonDocument()`,
i.e. `JsonDoc.null`). -/
def checkAuth (hmac : List Nat → List Nat → List Nat) (key : List Nat)
    (authEnabled : Bool) (nowMs : Nat) (slots : List AuthSlot)
    (doc : JsonDoc) (req : ApiRequest) : CheckAuthResult :=
  if ¬authEnabled then ⟨true, slots, none⟩
  else
    match req.nonceHeader, req.authHeader with
    | some nh, some ah =>
      let nonce := intToU32 (atol nh)
      let payload := checkAuthPayload doc
      let r := authVerify hmac key nowMs slots req.clientIp nonce req.uri payload ah
      ⟨r.1, r.2, some payload⟩
    | _, _ => ⟨false, slots, none⟩

/-! ## GpioUtils.cpp / DeviceController.cpp: pins and the cached pin table -/

/-- Arduino core `A0` on ESP8266. -/
def A0PIN : Nat := 17

/-- `A0_INDEX` of `DeviceController`. -/
def A0_INDEX : Nat := 17

/-- `MAX_GPIO_PINS` of `GpioUtils.h`. -/
def MAX_GPIO_PINS : Nat := 18

/-- `gpioIsValid` of `GpioUtils.cpp`. -/
def gpioIsValid (pin : Nat) : Bool :=
  if pin > 16 then false
  else if 6 ≤ pin ∧ pin ≤ 11 then false
  else true

/-- `gpioIsSafeOutput` of `GpioUtils.cpp` (cases 4, 5, 12, 13, 14 are true;
0, 2, 15 and the default are false). -/
def gpioIsSafeOutput (pin : Nat) : Bool :=
  if ¬gpioIsValid pin then false
  else pin = 4 || pin = 5 || pin = 12 || pin = 13 || pin = 14

/-- `gpioSupportsPWM` of `GpioUtils.cpp`. -/
def gpioSupportsPWM (pin : Nat) : Bool :=
  if ¬gpioIsValid pin then false
  else if pin = 16 then false
  else true

/-- `gpioSupportsPullup` of `GpioUtils.cpp`. -/
def gpioSupportsPullup (pin : Nat) : Bool :=
  if ¬gpioIsValid pin then false
  else if pin = 16 then false
  else true

/-- `PinMode` of `GpioUtils.h`. -/
inductive PinMode where
  | Disabled
  | Input
  | InputPullup
  | Output
  | Pwm
  | Analog
deriving DecidableEq, Repr

/-- `GpioConfig` of `GpioUtils.h`. -/
structure GpioConfig where
  pin : Nat
  mode : PinMode
  state : Int
deriving DecidableEq, Repr

instance : Inhabited GpioConfig := ⟨⟨0, PinMode.Disabled, 0⟩⟩

/-- Observable side effects of the scheduler and device layer, in program
order: a `deviceSet` call issued for a pin, a storage write of the GPIO
table (`/gpio_state.bin`), a storage write of the cron table
(`/cron_state.bin`), a job entering its matched branch and stamping
`lastExecEpoch`, and `ESP.restart()`. -/
inductive Eff where
  | setCall (pin : Nat)
  | wroteGpioTable
  | wroteCronTable
  | fired
  | rebooted
deriving DecidableEq, Repr

/-- `deviceGet` of `DeviceController.cpp`: the cached entry for a pin, `none`
(a C null pointer) for an invalid pin. -/
def deviceGet (gpio : List GpioConfig) (pin : Nat) : Option GpioConfig :=
  if pin = A0PIN then some (gpio.getD A0_INDEX default)
  else if ¬gpioIsValid pin then none
  else some (gpio.getD pin default)

/-- `deviceSet` of `DeviceController.cpp`.  `digitalReadFn` and `analogA0`
stand for the hardware reads; the hardware `pinMode`/`digitalWrite`/
`analogWrite` calls have no modelled state.  Returns the C `bool`, the cached
table afterwards, and the storage writes performed. -/
def deviceSet (digitalReadFn : Nat → Int) (analogA0 : Int)
    (gpio : List GpioConfig) (config : GpioConfig) :
    Bool × List GpioConfig × List Eff :=
  if config.pin = A0_INDEX then
    let prev := gpio.getD A0_INDEX default
    (true, gpio.set A0_INDEX { prev with mode := PinMode.Analog, state := analogA0 },
     [Eff.wroteGpioTable])
  else if ¬gpioIsValid config.pin then (false, gpio, [])
  else
    match config.mode with
    | PinMode.Output =>
      if ¬gpioIsSafeOutput config.pin then (false, gpio, [])
      else (true, gpio.set config.pin config, [Eff.wroteGpioTable])
    | PinMode.Pwm =>
      if ¬gpioSupportsPWM config.pin then (false, gpio, [])
      else (true, gpio.set config.pin config, [Eff.wroteGpioTable])
    | PinMode.Analog => (false, gpio, [])
    | PinMode.Input =>
      let c := { config with state := digitalReadFn config.pin }
      (true, gpio.set config.pin c, [Eff.wroteGpioTable])
    | PinMode.InputPullup =>
      if ¬gpioSupportsPullup config.pin then (false, gpio, [])
      else
        let c := { config with state := digitalReadFn config.pin }
        (true, gpio.set config.pin c, [Eff.wroteGpioTable])
    | PinMode.Disabled => (false, gpio, [])

/-! ## CronScheduler.cpp: matcher, job table, scheduler loop -/

/-- `MAX_CRON_JOBS` of `CronScheduler.h`. -/
def MAX_CRON_JOBS : Nat := 32

/-- `CRON_EXEC_WINDOW_SEC` of `CronScheduler.h`. -/
def CRON_EXEC_WINDOW_SEC : Nat := 2

/-- `CronAction` of `CronScheduler.h`. -/
inductive CronAction where
  | SetPinState
  | TogglePinState
  | HttpRequest
  | Reboot
deriving DecidableEq, Repr

/-- `CronJob` of `CronScheduler.h` (`cron` is the `char[32]` buffer content up
to its terminator). -/
structure CronJob where
  active : Bool
  cron : List Char
  action : CronAction
  pin : Nat
  value : Int
  lastExecEpoch : Nat
deriving DecidableEq, Repr

/-- The `struct tm` fields consumed by `cronMatch` (as produced by libc
`localtime` under the configured timezone). -/
structure Tm where
  sec : Int
  min : Int
  hour : Int
  mday : Int
  mon : Int
  wday : Int
deriving DecidableEq, Repr

/-- Chunk splitter: cut a string at every occurrence of a delimiter, keeping
empty chunks. -/
def splitChunks (d : Char) : List Char → List Char → List (List Char)
  | [], acc => [acc.reverse]
  | c :: rest, acc =>
    if c = d then acc.reverse :: splitChunks d rest []
    else splitChunks d rest (c :: acc)

/-- All chunks of a string between occurrences of a delimiter. -/
def splitAll (s : List Char) (d : Char) : List (List Char) := splitChunks d s []

/-- The token sequence produced by a C `strtok` loop: delimiter runs collapse,
so exactly the non-empty chunks remain. -/
def strtokSplit (s : List Char) (d : Char) : List (List Char) :=
  (splitAll s d).filter (· ≠ [])

/-- The suffix after the first occurrence of a character (`strchr` + 1),
`none` when the character does not occur. -/
def afterFirst (d : Char) : List Char → Option (List Char)
  | [] => none
  | c :: rest => if c = d then some rest else afterFirst d rest

/-- `cronFieldMatch` of `CronScheduler.cpp`: `"*"` matches everything;
otherwise the field is copied into a 16-byte buffer (truncating to 15
characters), split on commas by `strtok`, and each token is either a bare
`atoi` number or an `a-b` range split at its first dash. -/
def cronFieldMatch (expr : List Char) (value : Int) : Bool :=
  if expr = ['*'] then true
  else
    let buf := expr.take 15
    let toks := strtokSplit buf ','
    toks.any fun tok =>
      match afterFirst '-' tok with
      | none => atol tok == value
      | some afterDash => atol tok ≤ value && value ≤ atol afterDash

/-- `cronMatch` of `CronScheduler.cpp`.  `tmOf` is the libc `localtime`
collaborator (`none` models a NULL return).  The expression is copied into a
32-byte buffer (truncating to 31 characters) and split on spaces by `strtok`;
fewer than 5 tokens never match, and the first five tokens are checked against
minute, hour, day-of-month, month + 1, and weekday.  Then the
execution-window check and the `lastExecEpoch` anti-replay check run in
`uint32_t` arithmetic. -/
def cronMatch (tmOf : Nat → Option Tm) (job : CronJob) (nowEpoch : Nat) : Bool :=
  match tmOf nowEpoch with
  | none => false
  | some t =>
    let expr := job.cron.take 31
    let fields := strtokSplit expr ' '
    if fields.length < 5 then false
    else
      cronFieldMatch (fields.getD 0 []) t.min &&
      cronFieldMatch (fields.getD 1 []) t.hour &&
      cronFieldMatch (fields.getD 2 []) t.mday &&
      cronFieldMatch (fields.getD 3 []) (t.mon + 1) &&
      cronFieldMatch (fields.getD 4 []) t.wday &&
      (let targetEpoch := intToU32 ((nowEpoch : Int) - t.sec)
       decide ((u32ToI32 (sub32 nowEpoch targetEpoch)).natAbs ≤ CRON_EXEC_WINDOW_SEC)) &&
      decide (sub32 nowEpoch job.lastExecEpoch > CRON_EXEC_WINDOW_SEC)

/-- The in-memory scheduler state touched by `cronSchedulerLoop`: the static
`lastPrint`, the job table and the cached GPIO table. -/
structure CronState where
  lastPrint : Nat
  jobs : List CronJob
  gpio : List GpioConfig
deriving DecidableEq, Repr

/-- The per-job body of the `cronSchedulerLoop` for-loop.  `none` models the
crash of dereferencing the null pointer `deviceGet` returns for an invalid
pin; a `Reboot` action stops processing (`ESP.restart()` does not return), so
later jobs are untouched and the rebooting job's `lastExecEpoch` is never
stamped. -/
def runJobsAux (tmOf : Nat → Option Tm) (digitalReadFn : Nat → Int)
    (analogA0 : Int) (epochNow : Nat) :
    List CronJob → List GpioConfig →
    Option (List CronJob × List GpioConfig × List Eff)
  | [], gpio => some ([], gpio, [])
  | job :: rest, gpio =>
    if job.active && cronMatch tmOf job epochNow then
      match deviceGet gpio job.pin with
      | none => none
      | some existing =>
        match job.action with
        | CronAction.Reboot => some (job :: rest, gpio, [Eff.rebooted])
        | CronAction.HttpRequest =>
          match runJobsAux tmOf digitalReadFn analogA0 epochNow rest gpio with
          | none => none
          | some (rest', gpio', effs) =>
            some ({ job with lastExecEpoch := epochNow } :: rest', gpio',
              Eff.fired :: effs)
        | CronAction.SetPinState =>
          let r := deviceSet digitalReadFn analogA0 gpio
            { existing with state := job.value }
          match runJobsAux tmOf digitalReadFn analogA0 epochNow rest r.2.1 with
          | none => none
          | some (rest', gpio', effs) =>
            some ({ job with lastExecEpoch := epochNow } :: rest', gpio',
              Eff.setCall job.pin :: (r.2.2 ++ Eff.fired :: effs))
        | CronAction.TogglePinState =>
          let r := deviceSet digitalReadFn analogA0 gpio
            { existing with state := if existing.state ≠ 0 then 0 else 1 }
          match runJobsAux tmOf digitalReadFn analogA0 epochNow rest r.2.1 with
          | none => none
          | some (rest', gpio', effs) =>
            some ({ job with lastExecEpoch := epochNow } :: rest', gpio',
              Eff.setCall job.pin :: (r.2.2 ++ Eff.fired :: effs))
    else
      match runJobsAux tmOf digitalReadFn analogA0 epochNow rest gpio with
      | none => none
      | some (rest', gpio', effs) => some (job :: rest', gpio', effs)

/-- `cronSchedulerLoop` of `CronScheduler.cpp`: the once-per-second guard on
`millis() - lastPrint`, then the job scan.  Note that no write of the cron
table to storage occurs anywhere in the loop. -/
def cronSchedulerLoop (tmOf : Nat → Option Tm) (digitalReadFn : Nat → Int)
    (analogA0 : Int) (nowMs epochNow : Nat) (st : CronState) :
    Option (CronState × List Eff) :=
  if sub32 nowMs st.lastPrint ≥ 1000 then
    match runJobsAux tmOf digitalReadFn analogA0 epochNow st.jobs st.gpio with
    | none => none
    | some (jobs', gpio', effs) => some (⟨nowMs, jobs', gpio'⟩, effs)
  else some (st, [])

/-- `setCronJob` of `CronScheduler.cpp`: range check, overwrite, persist the
whole table (`storageOk` is the storage collaborator's success flag). -/
def setCronJob (storageOk : Bool) (jobs : List CronJob) (index : Nat)
    (job : CronJob) : Bool × List CronJob × List Eff :=
  if index ≥ MAX_CRON_JOBS then (false, jobs, [])
  else (storageOk, jobs.set index job, [Eff.wroteCronTable])

/-- Repeated invocations of `cronSchedulerLoop` by the Arduino main loop, each
with a `millis()` and an epoch reading; effects accumulate in order. -/
def runTicks (tmOf : Nat → Option Tm) (digitalReadFn : Nat → Int)
    (analogA0 : Int) : List (Nat × Nat) → CronState →
    Option (CronState × List Eff)
  | [], st => some (st, [])
  | (ms, ep) :: rest, st =>
    match cronSchedulerLoop tmOf digitalReadFn analogA0 ms ep st with
    | none => none
    | some (st', effs) =>
      match runTicks tmOf digitalReadFn analogA0 rest st' with
      | none => none
      | some (st'', effs') => some (st'', effs ++ effs')

/-! ## Spec-side cron field grammar (for the refinement claim about the
matcher).  These definitions follow the words of spec §4.2, to be compared
with `cronFieldMatch` above. -/

/-- Value of a pure digit string. -/
def decToInt (ds : List Char) : Int :=
  ds.foldl (fun acc c => acc * 10 + ((c.toNat : Int) - 48)) 0

/-- A non-empty all-digit string. -/
def WFnum (l : List Char) : Bool := decide (l ≠ []) && l.all isDigitC

/-- A well-formed list element: a bare number or a `a-b` range of numbers. -/
def WFelem (l : List Char) : Bool :=
  match splitAll l '-' with
  | [n] => WFnum n
  | [a, b] => WFnum a && WFnum b
  | _ => false

/-- A well-formed cron field: `*` or a comma-list of well-formed elements. -/
def WFfield (l : List Char) : Bool :=
  decide (l = ['*']) || (splitAll l ',').all WFelem

/-- Modelled from the spec (§4.2): `*` matches unconditionally; a bare integer
matches only that exact value; a dash pair `a-b` matches iff the value lies in
the inclusive non-wrapping range `[a, b]`; a comma list matches if any element
matches. -/
def specElemMatch (l : List Char) (v : Int) : Bool :=
  match splitAll l '-' with
  | [n] => decToInt n == v
  | [a, b] => decToInt a ≤ v && v ≤ decToInt b
  | _ => false

/-- Modelled from the spec (§4.2): field-level matching per the grammar. -/
def specFieldMatch (l : List Char) (v : Int) : Bool :=
  if l = ['*'] then true else (splitAll l ',').any (specElemMatch · v)

/-! ## Generic lemmas about the crypto primitives -/

/-- A bitwise or is zero exactly when both operands are. -/
lemma lor_eq_zero_iff (a b : Nat) : a ||| b = 0 ↔ a = 0 ∧ b = 0 := by
  constructor
  · intro h
    refine ⟨Nat.eq_of_testBit_eq fun i => ?_, Nat.eq_of_testBit_eq fun i => ?_⟩ <;>
    · have h2 := congrArg (fun x => Nat.testBit x i) h
      simp only [Nat.testBit_lor, Nat.zero_testBit, Bool.or_eq_false_iff] at h2
      simp [h2.1, h2.2, Nat.zero_testBit]
  · rintro ⟨rfl, rfl⟩; rfl

/-- The or-accumulating fold of `secureCompare` is zero iff every contribution
is zero. -/
lemma foldl_lor_eq_zero_iff (f : Nat → Nat) :
    ∀ (l : List Nat) (acc : Nat),
      (l.foldl (fun d i => d ||| f i) acc = 0 ↔ acc = 0 ∧ ∀ i ∈ l, f i = 0) := by
  intro l
  induction l with
  | nil => simp
  | cons x xs ih =>
    intro acc
    simp only [List.foldl_cons, ih (acc ||| f x), lor_eq_zero_iff,
      List.mem_cons]
    constructor
    · rintro ⟨⟨h1, h2⟩, h3⟩
      exact ⟨h1, fun i hi => hi.elim (fun he => he ▸ h2) (h3 i)⟩
    · rintro ⟨h1, h2⟩
      exact ⟨⟨h1, h2 x (Or.inl rfl)⟩, fun i hi => h2 i (Or.inr hi)⟩

/-- Characterisation of `secureCompare`: it succeeds exactly when the first
`len` bytes agree pairwise. -/
lemma secureCompare_eq_true_iff (a b : List Nat) (len : Nat) :
    secureCompare a b len = true ↔ ∀ i < len, a.getD i 0 = b.getD i 0 := by
  unfold secureCompare
  rw [beq_iff_eq, foldl_lor_eq_zero_iff (fun i => (a.getD i 0) ^^^ (b.getD i 0))]
  simp [Nat.xor_eq_zero]

/-- `secureCompare` accepts a buffer against itself. -/
lemma secureCompare_self (a : List Nat) (len : Nat) :
    secureCompare a a len = true :=
  (secureCompare_eq_true_iff a a len).mpr (fun _ _ => rfl)

/-- Two equal-length buffers that `secureCompare` accepts over their full
length are equal. -/
lemma secureCompare_eq_of_true {a b : List Nat} {len : Nat}
    (ha : a.length = len) (hb : b.length = len)
    (h : secureCompare a b len = true) : a = b := by
  rw [secureCompare_eq_true_iff] at h
  apply List.ext_getElem (ha.trans hb.symm)
  intro i h1 h2
  have hd := h i (ha ▸ h1)
  rwa [List.getD_eq_getElem?_getD, List.getD_eq_getElem?_getD,
    List.getElem?_eq_getElem h1, List.getElem?_eq_getElem h2] at hd

/-- `bytesToHex` produces two characters per byte. -/
lemma bytesToHex_length (bs : List Nat) :
    (bytesToHex bs).length = 2 * bs.length := by
  induction bs with
  | nil => rfl
  | cons b rest ih =>
    show (nibbleChar ((b >>> 4) &&& 15) :: nibbleChar (b &&& 15) ::
      bytesToHex rest).length = 2 * (b :: rest).length
    simp only [List.length_cons, ih]
    omega

/-- Decoding a nibble character gives the nibble back. -/
lemma hexToNibble_nibbleChar_fin : ∀ m : Fin 16,
    hexToNibble (nibbleChar m.val) = m.val := by decide

/-- Decoding a nibble character gives the nibble back (Nat version). -/
lemma hexToNibble_nibbleChar {m : Nat} (h : m < 16) :
    hexToNibble (nibbleChar m) = m :=
  hexToNibble_nibbleChar_fin ⟨m, h⟩

/-- The high nibble of a byte. -/
lemma byte_high_nibble {b : Nat} (h : b < 256) :
    (b >>> 4) &&& 15 = b / 16 := by
  have h1 := Nat.shiftRight_eq_div_pow b 4
  have h2 := Nat.and_pow_two_sub_one_eq_mod (b >>> 4) 4
  norm_num at h1 h2
  rw [h2, h1, Nat.mod_eq_of_lt (by omega)]

/-- The low nibble of a byte. -/
lemma byte_low_nibble (b : Nat) : b &&& 15 = b % 16 := by
  have h2 := Nat.and_pow_two_sub_one_eq_mod b 4
  norm_num at h2
  exact h2

/-- Round trip: `hexToBytes` inverts `bytesToHex` on genuine byte lists. -/
lemma hexToBytes_bytesToHex {bs : List Nat} (h : ∀ b ∈ bs, b < 256) :
    hexToBytes (bytesToHex bs) bs.length = some bs := by
  induction bs with
  | nil => rfl
  | cons b rest ih =>
    have hb : b < 256 := h b (List.mem_cons_self b rest)
    have hrest : ∀ x ∈ rest, x < 256 := fun x hx => h x (List.mem_cons_of_mem b hx)
    have hhi : (b >>> 4) &&& 15 = b / 16 := byte_high_nibble hb
    have hlo : b &&& 15 = b % 16 := byte_low_nibble b
    have hdiv : b / 16 < 16 := by omega
    have hmod : b % 16 < 16 := by omega
    simp only [bytesToHex, List.foldr_cons, List.length_cons]
    show hexToBytes
      (nibbleChar ((b >>> 4) &&& 15) :: nibbleChar (b &&& 15) :: bytesToHex rest)
      (rest.length + 1) = some (b :: rest)
    rw [hexToBytes, hhi, hlo, hexToNibble_nibbleChar hdiv, hexToNibble_nibbleChar hmod]
    have hne1 : ¬(b / 16 = 255 ∨ b % 16 = 255) := by omega
    rw [if_neg hne1, ih hrest]
    simp only [Option.map_some']
    congr 1
    congr 1
    omega

/-- Character order transfers to code points. -/
lemma char_toNat_le_of_le {a b : Char} (h : a ≤ b) : a.toNat ≤ b.toNat := by
  simp only [Char.le_def] at h
  show a.val.toNat ≤ b.val.toNat
  exact_mod_cast h

/-- A non-`0xFF` result of `hexToNibble` is an actual nibble. -/
lemma hexToNibble_lt_or_eq (c : Char) :
    hexToNibble c = 255 ∨ hexToNibble c < 16 := by
  unfold hexToNibble
  split_ifs with h1 h2 h3
  · obtain ⟨ha, hb⟩ := h1
    have ha' : 48 ≤ c.toNat := char_toNat_le_of_le ha
    have hb' : c.toNat ≤ 57 := char_toNat_le_of_le hb
    right; omega
  · obtain ⟨ha, hb⟩ := h2
    have ha' : 97 ≤ c.toNat := char_toNat_le_of_le ha
    have hb' : c.toNat ≤ 102 := char_toNat_le_of_le hb
    right; omega
  · obtain ⟨ha, hb⟩ := h3
    have ha' : 65 ≤ c.toNat := char_toNat_le_of_le ha
    have hb' : c.toNat ≤ 70 := char_toNat_le_of_le hb
    right; omega
  · left; rfl

/-- A successful `hexToBytes` yields exactly `n` bytes, all below 256. -/
lemma hexToBytes_some_facts :
    ∀ (n : Nat) (s : List Char) (bs : List Nat),
      hexToBytes s n = some bs → bs.length = n ∧ ∀ b ∈ bs, b < 256 := by
  intro n
  induction n with
  | zero =>
    intro s bs h
    simp only [hexToBytes, Option.some.injEq] at h
    subst h
    exact ⟨rfl, by simp⟩
  | succ m ih =>
    intro s bs h
    match s with
    | [] => exact absurd h (by simp [hexToBytes])
    | [c] => exact absurd h (by simp [hexToBytes])
    | c1 :: c2 :: rest =>
      rw [hexToBytes] at h
      by_cases hbad : hexToNibble c1 = 255 ∨ hexToNibble c2 = 255
      · rw [if_pos hbad] at h; exact absurd h (by simp)
      · rw [if_neg hbad] at h
        push_neg at hbad
        have h1 : hexToNibble c1 < 16 :=
          (hexToNibble_lt_or_eq c1).resolve_left hbad.1
        have h2 : hexToNibble c2 < 16 :=
          (hexToNibble_lt_or_eq c2).resolve_left hbad.2
        cases hrec : hexToBytes rest m with
        | none => rw [hrec] at h; exact absurd h (by simp)
        | some bs' =>
          rw [hrec] at h
          simp only [Option.map_some', Option.some.injEq] at h
          subst h
          obtain ⟨hl, hb⟩ := ih rest bs' hrec
          refine ⟨by simp [hl], ?_⟩
          intro b hbmem
          rcases List.mem_cons.mp hbmem with he | hm
          · subst he; omega
          · exact hb b hm

/-! ## List indexing helpers -/

/-- Reading the freshly written position of `List.set`. -/
lemma list_getD_set_eq {α : Type} (l : List α) (i : Nat) (a d : α)
    (h : i < l.length) : (l.set i a).getD i d = a := by
  rw [List.getD_eq_getElem?_getD, List.getElem?_set_self h]
  simp [List.getElem?_eq_getElem, h]

/-- Reading an untouched position of `List.set`. -/
lemma list_getD_set_ne {α : Type} (l : List α) (i j : Nat) (a d : α)
    (h : i ≠ j) : (l.set i a).getD j d = l.getD j d := by
  rw [List.getD_eq_getElem?_getD, List.getElem?_set_ne h,
    ← List.getD_eq_getElem?_getD]

/-! ## Lemmas about the slot pool scans -/

/-- What a successful `findSlotByIp` scan guarantees, tracked through the
index accumulator. -/
lemma findSlotByIpAux_spec (ip : Nat) :
    ∀ (l : List AuthSlot) (k i : Nat), findSlotByIpAux ip l k = some i →
      k ≤ i ∧ i - k < l.length ∧
      (l.getD (i - k) clearedSlot).active = true ∧
      (l.getD (i - k) clearedSlot).ip = ip := by
  intro l
  induction l with
  | nil => intro k i h; exact absurd h (by simp [findSlotByIpAux])
  | cons s rest ih =>
    intro k i h
    rw [findSlotByIpAux] at h
    by_cases hc : s.active = true ∧ s.ip = ip
    · rw [if_pos hc] at h
      injection h with h'
      subst h'
      refine ⟨Nat.le_refl _, by simp, ?_, ?_⟩
      · rw [Nat.sub_self, List.getD_cons_zero]; exact hc.1
      · rw [Nat.sub_self, List.getD_cons_zero]; exact hc.2
    · rw [if_neg hc] at h
      obtain ⟨h1, h2, h3, h4⟩ := ih (k + 1) i h
      have hik : i - k = (i - (k + 1)) + 1 := by omega
      refine ⟨by omega, ?_, ?_, ?_⟩
      · simp only [List.length_cons]; omega
      · rw [hik, List.getD_cons_succ]; exact h3
      · rw [hik, List.getD_cons_succ]; exact h4

/-- A located slot index is in range, active and bound to the identity. -/
lemma findSlotByIp_spec {slots : List AuthSlot} {ip i : Nat}
    (h : findSlotByIp slots ip = some i) :
    i < slots.length ∧ (slots.getD i clearedSlot).active = true ∧
      (slots.getD i clearedSlot).ip = ip := by
  obtain ⟨-, h2, h3, h4⟩ := findSlotByIpAux_spec ip slots 0 i h
  rw [Nat.sub_zero] at h2 h3 h4
  exact ⟨h2, h3, h4⟩

/-- A pool in which no index holds an active slot for the identity is not
located, whatever the index accumulator. -/
lemma findSlotByIpAux_eq_none (ip : Nat) :
    ∀ (l : List AuthSlot) (k : Nat),
      (∀ j, j < l.length →
        ¬((l.getD j clearedSlot).active = true ∧ (l.getD j clearedSlot).ip = ip)) →
      findSlotByIpAux ip l k = none := by
  intro l
  induction l with
  | nil => intro k _; rfl
  | cons s rest ih =>
    intro k h
    rw [findSlotByIpAux, if_neg (by simpa using h 0 (by simp))]
    exact ih (k + 1) (fun j hj => by simpa using h (j + 1) (by simpa using hj))

/-- `findSlotByIp` misses when no index matches. -/
lemma findSlotByIp_eq_none {slots : List AuthSlot} {ip : Nat}
    (h : ∀ j, j < slots.length →
      ¬((slots.getD j clearedSlot).active = true ∧
        (slots.getD j clearedSlot).ip = ip)) :
    findSlotByIp slots ip = none :=
  findSlotByIpAux_eq_none ip slots 0 h

/-! ## Lemmas about the state `authVerify` leaves behind -/

/-- Once the stored nonce matches the supplied one, every remaining branch of
`authVerify` clears the located slot. -/
lemma authVerify_snd_nonce_eq (hmac : List Nat → List Nat → List Nat)
    (key : List Nat) (nowMs : Nat) (slots : List AuthSlot)
    (ip nonce : Nat) (uri payload sig : List Char) {i : Nat}
    (hfind : findSlotByIp slots ip = some i)
    (hnonce : (slots.getD i clearedSlot).nonce = nonce) :
    (authVerify hmac key nowMs slots ip nonce uri payload sig).2 =
      slots.set i clearedSlot := by
  have hspec := findSlotByIp_spec hfind
  simp only [authVerify, hfind]
  rw [if_neg (not_not_intro ⟨hspec.2.1, hnonce⟩)]
  split_ifs <;> try rfl
  cases hexToBytes sig 32 <;> rfl

/-- A nonce mismatch returns without touching the pool. -/
lemma authVerify_of_nonce_ne (hmac : List Nat → List Nat → List Nat)
    (key : List Nat) (nowMs : Nat) (slots : List AuthSlot)
    (ip nonce : Nat) (uri payload sig : List Char) {i : Nat}
    (hfind : findSlotByIp slots ip = some i)
    (hnonce : (slots.getD i clearedSlot).nonce ≠ nonce) :
    authVerify hmac key nowMs slots ip nonce uri payload sig = (false, slots) := by
  simp only [authVerify, hfind]
  rw [if_pos (fun hc => hnonce hc.2)]

/-- Full characterisation of the `authVerify` boolean on an unexpired,
nonce-matching slot within the data-length bound: it is `true` exactly when
the signature is 64 characters of hex decoding to the expected
HMAC-SHA256 output. -/
lemma authVerify_fst_iff (hmac : List Nat → List Nat → List Nat)
    (key : List Nat) (nowMs : Nat) (slots : List AuthSlot)
    (ip nonce : Nat) (uri payload sig : List Char) {i : Nat}
    (hfind : findSlotByIp slots ip = some i)
    (hnonce : (slots.getD i clearedSlot).nonce = nonce)
    (hexp : sub32 nowMs (slots.getD i clearedSlot).timestamp ≤ NONCE_TIMEOUT_MS)
    (hlen : (u32Dec nonce).length + uri.length + payload.length ≤ 1024)
    (hmlen : (hmac key (strBytes (u32Dec nonce ++ uri ++ payload))).length = 32) :
    (authVerify hmac key nowMs slots ip nonce uri payload sig).1 = true ↔
      sig.length = 64 ∧
        hexToBytes sig 32 =
          some (hmac key (strBytes (u32Dec nonce ++ uri ++ payload))) := by
  have hspec := findSlotByIp_spec hfind
  simp only [authVerify, hfind]
  rw [if_neg (not_not_intro ⟨hspec.2.1, hnonce⟩), if_neg (by omega)]
  by_cases hsl : sig.length = 64
  · rw [if_neg (by simp [hsl]), if_neg (by omega)]
    cases hx : hexToBytes sig 32 with
    | none => simp [hx]
    | some m =>
      obtain ⟨hml, hmb⟩ := hexToBytes_some_facts 32 sig m hx
      simp only [hsl, hx, true_and, Option.some.injEq]
      constructor
      · intro hcmp
        exact (secureCompare_eq_of_true hmlen hml hcmp).symm
      · rintro rfl
        exact secureCompare_self _ _
  · rw [if_pos (by simpa using hsl)]
    simp [hsl]

/-- A well-formed signature whose decoded mac is any value other than the
expected one is rejected. -/
lemma authVerify_wrong_mac_false (hmac : List Nat → List Nat → List Nat)
    (key : List Nat) (nowMs : Nat) (slots : List AuthSlot)
    (ip nonce : Nat) (uri payload : List Char) {i : Nat} (mac2 : List Nat)
    (hfind : findSlotByIp slots ip = some i)
    (hnonce : (slots.getD i clearedSlot).nonce = nonce)
    (hexp : sub32 nowMs (slots.getD i clearedSlot).timestamp ≤ NONCE_TIMEOUT_MS)
    (hlen : (u32Dec nonce).length + uri.length + payload.length ≤ 1024)
    (hmlen : (hmac key (strBytes (u32Dec nonce ++ uri ++ payload))).length = 32)
    (hm2len : mac2.length = 32) (hm2b : ∀ b ∈ mac2, b < 256)
    (hne : mac2 ≠ hmac key (strBytes (u32Dec nonce ++ uri ++ payload))) :
    (authVerify hmac key nowMs slots ip nonce uri payload (bytesToHex mac2)).1 =
      false := by
  have hiff := authVerify_fst_iff hmac key nowMs slots ip nonce uri payload
    (bytesToHex mac2) hfind hnonce hexp hlen hmlen
  by_contra hcon
  rw [Bool.not_eq_false] at hcon
  obtain ⟨-, hdec⟩ := hiff.mp hcon
  rw [← hm2len, hexToBytes_bytesToHex hm2b, Option.some.injEq] at hdec
  exact hne hdec

/-- A correctly computed signature over the exact concatenation is accepted
on an unexpired nonce-matching slot. -/
lemma authVerify_correct_sig_true (hmac : List Nat → List Nat → List Nat)
    (key : List Nat) (nowMs : Nat) (slots : List AuthSlot)
    (ip nonce : Nat) (uri payload : List Char) {i : Nat}
    (hfind : findSlotByIp slots ip = some i)
    (hnonce : (slots.getD i clearedSlot).nonce = nonce)
    (hexp : sub32 nowMs (slots.getD i clearedSlot).timestamp ≤ NONCE_TIMEOUT_MS)
    (hlen : (u32Dec nonce).length + uri.length + payload.length ≤ 1024)
    (hmlen : (hmac key (strBytes (u32Dec nonce ++ uri ++ payload))).length = 32)
    (hmbytes : ∀ b ∈ hmac key (strBytes (u32Dec nonce ++ uri ++ payload)), b < 256) :
    (authVerify hmac key nowMs slots ip nonce uri payload
      (bytesToHex (hmac key (strBytes (u32Dec nonce ++ uri ++ payload))))).1 =
      true := by
  rw [authVerify_fst_iff hmac key nowMs slots ip nonce uri payload _
    hfind hnonce hexp hlen hmlen]
  refine ⟨?_, ?_⟩
  · rw [bytesToHex_length, hmlen]
  · rw [← hmlen, hexToBytes_bytesToHex hmbytes]

/-- An expired slot is rejected regardless of the signature. -/
lemma authVerify_expired_false (hmac : List Nat → List Nat → List Nat)
    (key : List Nat) (nowMs : Nat) (slots : List AuthSlot)
    (ip nonce : Nat) (uri payload sig : List Char) {i : Nat}
    (hfind : findSlotByIp slots ip = some i)
    (hnonce : (slots.getD i clearedSlot).nonce = nonce)
    (hexp : sub32 nowMs (slots.getD i clearedSlot).timestamp > NONCE_TIMEOUT_MS) :
    (authVerify hmac key nowMs slots ip nonce uri payload sig).1 = false := by
  have hspec := findSlotByIp_spec hfind
  simp only [authVerify, hfind]
  rw [if_neg (not_not_intro ⟨hspec.2.1, hnonce⟩), if_pos hexp]

/-! ## Claim C1 -/

/-- C1 counterexample: a call whose client identity locates an active slot but
whose nonce mismatches returns `false` with the slot still active, refuting
"the slot is inactive when the call returns regardless of outcome … on nonce
mismatch". -/
theorem c1_nonce_mismatch_keeps_slot_active :
    findSlotByIp [⟨1, 5, 0, true⟩, clearedSlot] 1 = some 0 ∧
    (authVerify (fun _ _ => List.replicate 32 0) (List.replicate 32 0) 0
      [⟨1, 5, 0, true⟩, clearedSlot] 1 6 [] [] []).1 = false ∧
    ((authVerify (fun _ _ => List.replicate 32 0) (List.replicate 32 0) 0
      [⟨1, 5, 0, true⟩, clearedSlot] 1 6 [] [] []).2.getD 0
        clearedSlot).active = true := by decide

/-- C1 (amended): for every call to `authVerify` whose client identity locates
an active slot, the slot is inactive when the call returns on every outcome in
which the stored nonce equals the supplied one — success, expiry, malformed
signature encoding, and signature mismatch alike; on a nonce mismatch,
however, the call returns with the pool (and hence the still-active slot)
unchanged. -/
theorem c1_slot_deactivation (hmac : List Nat → List Nat → List Nat)
    (key : List Nat) (nowMs : Nat) (slots : List AuthSlot)
    (ip nonce : Nat) (uri payload sig : List Char) (i : Nat)
    (hfind : findSlotByIp slots ip = some i) :
    ((slots.getD i clearedSlot).nonce = nonce →
      ((authVerify hmac key nowMs slots ip nonce uri payload sig).2.getD i
        clearedSlot).active = false)
    ∧ ((slots.getD i clearedSlot).nonce ≠ nonce →
      (authVerify hmac key nowMs slots ip nonce uri payload sig).2 = slots) := by
  constructor
  · intro hnonce
    rw [authVerify_snd_nonce_eq hmac key nowMs slots ip nonce uri payload sig
      hfind hnonce,
      list_getD_set_eq _ _ _ _ (findSlotByIp_spec hfind).1]
    rfl
  · intro hnonce
    rw [authVerify_of_nonce_ne hmac key nowMs slots ip nonce uri payload sig
      hfind hnonce]

/-- Witness for C1 (amended) at a concrete pool: identity 1 located in slot 0,
matching nonce 5: the slot is inactive afterwards. -/
theorem c1_slot_deactivation_witness :
    findSlotByIp [⟨1, 5, 0, true⟩, clearedSlot] 1 = some 0 ∧
    (((List.getD [⟨1, 5, 0, true⟩, clearedSlot] 0 clearedSlot).nonce = 5 →
      ((authVerify (fun _ _ => List.replicate 32 0) (List.replicate 32 0) 0
        [⟨1, 5, 0, true⟩, clearedSlot] 1 5 [] [] []).2.getD 0
          clearedSlot).active = false)
    ∧ ((List.getD [⟨1, 5, 0, true⟩, clearedSlot] 0 clearedSlot).nonce ≠ 5 →
      (authVerify (fun _ _ => List.replicate 32 0) (List.replicate 32 0) 0
        [⟨1, 5, 0, true⟩, clearedSlot] 1 5 [] [] []).2 =
        [⟨1, 5, 0, true⟩, clearedSlot])) :=
  ⟨by decide,
   c1_slot_deactivation (fun _ _ => List.replicate 32 0) (List.replicate 32 0)
     0 [⟨1, 5, 0, true⟩, clearedSlot] 1 5 [] [] [] 0 (by decide)⟩

/-! ## Claim C4 -/

/-- C4: for any slot, after one call to `authVerify` with matching client
identity and nonce (whether the signature comparison succeeds or fails), a
second call with the same nonce for the same identity returns `false`, because
the slot is already deactivated.  (The pool is assumed to satisfy the
documented invariant of at most one active slot per identity.) -/
theorem c4_nonce_single_use (hmac hmac2 : List Nat → List Nat → List Nat)
    (key key2 : List Nat) (nowMs nowMs2 : Nat) (slots : List AuthSlot)
    (ip nonce : Nat) (uri payload sig uri2 payload2 sig2 : List Char) (i : Nat)
    (hfind : findSlotByIp slots ip = some i)
    (hnonce : (slots.getD i clearedSlot).nonce = nonce)
    (huniq : ∀ j, j < slots.length → j ≠ i →
      ¬((slots.getD j clearedSlot).active = true ∧
        (slots.getD j clearedSlot).ip = ip)) :
    (authVerify hmac2 key2 nowMs2
      (authVerify hmac key nowMs slots ip nonce uri payload sig).2
      ip nonce uri2 payload2 sig2).1 = false := by
  have hclr := authVerify_snd_nonce_eq hmac key nowMs slots ip nonce uri payload
    sig hfind hnonce
  have hlt := (findSlotByIp_spec hfind).1
  have hnone : findSlotByIp
      (authVerify hmac key nowMs slots ip nonce uri payload sig).2 ip = none := by
    rw [hclr]
    apply findSlotByIp_eq_none
    intro j hj
    rw [List.length_set] at hj
    by_cases hji : j = i
    · subst hji
      rw [list_getD_set_eq _ _ _ _ hlt]
      intro hcon
      exact absurd hcon.1 (by decide)
    · rw [list_getD_set_ne _ _ _ _ _ (fun he => hji he.symm)]
      exact huniq j hj hji
  rw [hclr] at hnone ⊢
  simp only [authVerify, hnone]

/-- Witness for C4 at a concrete pool: after verifying nonce 5 for identity 1,
a replay of nonce 5 for identity 1 is rejected. -/
theorem c4_nonce_single_use_witness :
    (findSlotByIp [⟨1, 5, 0, true⟩, clearedSlot] 1 = some 0 ∧
     (List.getD [⟨1, 5, 0, true⟩, clearedSlot] 0 clearedSlot).nonce = 5 ∧
     (∀ j, j < 2 → j ≠ 0 →
      ¬((List.getD [⟨1, 5, 0, true⟩, clearedSlot] j clearedSlot).active = true ∧
        (List.getD [⟨1, 5, 0, true⟩, clearedSlot] j clearedSlot).ip = 1))) ∧
    (authVerify (fun _ _ => List.replicate 32 0) (List.replicate 32 0) 0
      (authVerify (fun _ _ => List.replicate 32 0) (List.replicate 32 0) 0
        [⟨1, 5, 0, true⟩, clearedSlot] 1 5 [] [] []).2
      1 5 [] [] []).1 = false :=
  ⟨⟨by decide, by decide, by decide⟩,
   c4_nonce_single_use (fun _ _ => List.replicate 32 0)
     (fun _ _ => List.replicate 32 0) (List.replicate 32 0)
     (List.replicate 32 0) 0 0 [⟨1, 5, 0, true⟩, clearedSlot] 1 5 [] [] [] [] []
     [] 0 (by decide) (by decide) (by decide)⟩

/-! ## Claim C5 -/

/-- C5: given a matching active slot, an unexpired nonce and a combined data
length within the 1024-byte bound, `authVerify` returns `true` if and only if
the supplied signature is exactly 64 hex characters decoding to the 32-byte
value HMAC-SHA256(secret, decimalString(nonce) ++ uri ++ payload) — the exact
concatenation with no separators, compared with the constant-time
`secureCompare`; consequently a signature of any other length or with a
non-hex character yields `false`, and so does a signature correctly computed
over any altered data string (in particular one with a space inserted
anywhere) whose mac differs from the expected one.  (`authVerify` never
consults the enablement flag, so the equivalence holds whenever the engine is
invoked with authentication enabled.) -/
theorem c5_verify_signature_iff (hmac : List Nat → List Nat → List Nat)
    (key : List Nat) (nowMs : Nat) (slots : List AuthSlot)
    (ip nonce : Nat) (uri payload sig : List Char) (i : Nat)
    (hfind : findSlotByIp slots ip = some i)
    (hnonce : (slots.getD i clearedSlot).nonce = nonce)
    (hexp : sub32 nowMs (slots.getD i clearedSlot).timestamp ≤ NONCE_TIMEOUT_MS)
    (hlen : (u32Dec nonce).length + uri.length + payload.length ≤ 1024)
    (hmlen : (hmac key (strBytes (u32Dec nonce ++ uri ++ payload))).length = 32) :
    ((authVerify hmac key nowMs slots ip nonce uri payload sig).1 = true ↔
      sig.length = 64 ∧
        hexToBytes sig 32 =
          some (hmac key (strBytes (u32Dec nonce ++ uri ++ payload))))
    ∧ (∀ data2 : List Char,
        hmac key (strBytes data2) ≠
          hmac key (strBytes (u32Dec nonce ++ uri ++ payload)) →
        (hmac key (strBytes data2)).length = 32 →
        (∀ b ∈ hmac key (strBytes data2), b < 256) →
        (authVerify hmac key nowMs slots ip nonce uri payload
          (bytesToHex (hmac key (strBytes data2)))).1 = false) :=
  ⟨authVerify_fst_iff hmac key nowMs slots ip nonce uri payload sig
      hfind hnonce hexp hlen hmlen,
   fun _ hne h32 hb =>
     authVerify_wrong_mac_false hmac key nowMs slots ip nonce uri payload _
       hfind hnonce hexp hlen hmlen h32 hb hne⟩

/-- Witness for C5 at a concrete pool, key and hmac collaborator. -/
theorem c5_verify_signature_iff_witness :
    (findSlotByIp [⟨1, 7, 0, true⟩] 1 = some 0 ∧
     (List.getD [⟨1, 7, 0, true⟩] 0 clearedSlot).nonce = 7 ∧
     sub32 40000 (List.getD [⟨1, 7, 0, true⟩] 0 clearedSlot).timestamp ≤
       NONCE_TIMEOUT_MS ∧
     (u32Dec 7).length + "/api/state".data.length + List.length ([] : List Char)
       ≤ 1024 ∧
     ((fun (_ _ : List Nat) => List.replicate 32 0) (List.replicate 32 0)
       (strBytes (u32Dec 7 ++ "/api/state".data ++ []))).length = 32) ∧
    (((authVerify (fun _ _ => List.replicate 32 0) (List.replicate 32 0) 40000
        [⟨1, 7, 0, true⟩] 1 7 "/api/state".data []
        (bytesToHex (List.replicate 32 0))).1 = true ↔
      (bytesToHex (List.replicate 32 (0 : Nat))).length = 64 ∧
        hexToBytes (bytesToHex (List.replicate 32 0)) 32 =
          some ((fun (_ _ : List Nat) => List.replicate 32 (0 : Nat))
            (List.replicate 32 0)
            (strBytes (u32Dec 7 ++ "/api/state".data ++ []))))
    ∧ (∀ data2 : List Char,
        (fun (_ _ : List Nat) => List.replicate 32 (0 : Nat))
            (List.replicate 32 0) (strBytes data2) ≠
          (fun (_ _ : List Nat) => List.replicate 32 (0 : Nat))
            (List.replicate 32 0)
            (strBytes (u32Dec 7 ++ "/api/state".data ++ [])) →
        ((fun (_ _ : List Nat) => List.replicate 32 (0 : Nat))
          (List.replicate 32 0) (strBytes data2)).length = 32 →
        (∀ b ∈ (fun (_ _ : List Nat) => List.replicate 32 (0 : Nat))
          (List.replicate 32 0) (strBytes data2), b < 256) →
        (authVerify (fun _ _ => List.replicate 32 0) (List.replicate 32 0) 40000
          [⟨1, 7, 0, true⟩] 1 7 "/api/state".data []
          (bytesToHex ((fun (_ _ : List Nat) => List.replicate 32 (0 : Nat))
            (List.replicate 32 0) (strBytes data2)))).1 = false)) :=
  ⟨⟨by decide, by decide, by decide, by decide, by decide⟩,
   c5_verify_signature_iff (fun _ _ => List.replicate 32 0)
     (List.replicate 32 0) 40000 [⟨1, 7, 0, true⟩] 1 7 "/api/state".data []
     (bytesToHex (List.replicate 32 0)) 0 (by decide) (by decide) (by decide)
     (by decide) (by decide)⟩

/-! ## Claim C7 -/

/-- C7: with matching identity and nonce, a data length within the bound and a
correct well-formed signature, `authVerify` succeeds when the slot's age
`now - issuedAtMs` equals the fixed timeout minus 1 ms, fails regardless of
the signature when the age equals the timeout plus 1 ms, and the fixed timeout
lies in the 30–50 second range. -/
theorem c7_expiry_boundaries (hmac : List Nat → List Nat → List Nat)
    (key : List Nat) (slots : List AuthSlot) (ip nonce : Nat)
    (uri payload : List Char) (i : Nat) (now1 now2 : Nat)
    (hfind : findSlotByIp slots ip = some i)
    (hnonce : (slots.getD i clearedSlot).nonce = nonce)
    (h1 : sub32 now1 (slots.getD i clearedSlot).timestamp = NONCE_TIMEOUT_MS - 1)
    (h2 : sub32 now2 (slots.getD i clearedSlot).timestamp = NONCE_TIMEOUT_MS + 1)
    (hlen : (u32Dec nonce).length + uri.length + payload.length ≤ 1024)
    (hmlen : (hmac key (strBytes (u32Dec nonce ++ uri ++ payload))).length = 32)
    (hmbytes : ∀ b ∈ hmac key (strBytes (u32Dec nonce ++ uri ++ payload)),
      b < 256) :
    (authVerify hmac key now1 slots ip nonce uri payload
      (bytesToHex (hmac key (strBytes (u32Dec nonce ++ uri ++ payload))))).1 =
      true
    ∧ (∀ sig, (authVerify hmac key now2 slots ip nonce uri payload sig).1 = false)
    ∧ 30000 ≤ NONCE_TIMEOUT_MS ∧ NONCE_TIMEOUT_MS ≤ 50000 := by
  refine ⟨?_, ?_, by decide, by decide⟩
  · exact authVerify_correct_sig_true hmac key now1 slots ip nonce uri payload
      hfind hnonce (by rw [h1]; exact Nat.sub_le _ _) hlen hmlen hmbytes
  · intro sig
    exact authVerify_expired_false hmac key now2 slots ip nonce uri payload sig
      hfind hnonce (by rw [h2]; exact Nat.lt_succ_self _)

/-- Witness for C7 at a concrete pool: issue time 0, verification at 49999 ms
and at 50001 ms. -/
theorem c7_expiry_boundaries_witness :
    (findSlotByIp [⟨1, 7, 0, true⟩] 1 = some 0 ∧
     (List.getD [⟨1, 7, 0, true⟩] 0 clearedSlot).nonce = 7 ∧
     sub32 49999 (List.getD [⟨1, 7, 0, true⟩] 0 clearedSlot).timestamp =
       NONCE_TIMEOUT_MS - 1 ∧
     sub32 50001 (List.getD [⟨1, 7, 0, true⟩] 0 clearedSlot).timestamp =
       NONCE_TIMEOUT_MS + 1) ∧
    ((authVerify (fun _ _ => List.replicate 32 0) (List.replicate 32 0) 49999
       [⟨1, 7, 0, true⟩] 1 7 "/api/state".data []
       (bytesToHex ((fun (_ _ : List Nat) => List.replicate 32 (0 : Nat))
         (List.replicate 32 0)
         (strBytes (u32Dec 7 ++ "/api/state".data ++ []))))).1 = true
    ∧ (∀ sig, (authVerify (fun _ _ => List.replicate 32 0) (List.replicate 32 0)
        50001 [⟨1, 7, 0, true⟩] 1 7 "/api/state".data [] sig).1 = false)
    ∧ 30000 ≤ NONCE_TIMEOUT_MS ∧ NONCE_TIMEOUT_MS ≤ 50000) :=
  ⟨⟨by decide, by decide, by decide, by decide⟩,
   c7_expiry_boundaries (fun _ _ => List.replicate 32 0) (List.replicate 32 0)
     [⟨1, 7, 0, true⟩] 1 7 "/api/state".data [] 0 49999 50001 (by decide)
     (by decide) (by decide) (by decide) (by decide) (by decide) (by decide)⟩

/-! ## Claim C8: lemmas about slot selection across a challenge sequence -/

/-- Membership version of the failed-scan lemma. -/
lemma findSlotByIpAux_none_mem (ip : Nat) :
    ∀ (l : List AuthSlot), (∀ s ∈ l, ¬(s.active = true ∧ s.ip = ip)) →
      ∀ k, findSlotByIpAux ip l k = none := by
  intro l
  induction l with
  | nil => intro _ k; rfl
  | cons s rest ih =>
    intro h k
    rw [findSlotByIpAux, if_neg (by simpa using h s (List.mem_cons_self s rest))]
    exact ih (fun s' hs' => h s' (List.mem_cons_of_mem s hs')) (k + 1)

/-- The free-slot scan skips a prefix of active slots and stops at the first
cleared slot behind it. -/
lemma findFreeSlotAux_skip_active (rest : List AuthSlot) :
    ∀ (l : List AuthSlot) (k : Nat), (∀ s ∈ l, s.active = true) →
      findFreeSlotAux (l ++ clearedSlot :: rest) k = some (k + l.length) := by
  intro l
  induction l with
  | nil => intro k _; rfl
  | cons s front ih =>
    intro k h
    show findFreeSlotAux (s :: (front ++ clearedSlot :: rest)) k = _
    rw [findFreeSlotAux, if_pos (h s (List.mem_cons_self s front)),
      ih (k + 1) (fun s' hs' => h s' (List.mem_cons_of_mem s hs'))]
    simp only [List.length_cons]
    congr 1
    omega

/-- The free-slot scan fails on a fully active pool. -/
lemma findFreeSlotAux_all_active :
    ∀ (l : List AuthSlot) (k : Nat), (∀ s ∈ l, s.active = true) →
      findFreeSlotAux l k = none := by
  intro l
  induction l with
  | nil => intro _ _; rfl
  | cons s rest ih =>
    intro k h
    rw [findFreeSlotAux, if_pos (h s (List.mem_cons_self s rest))]
    exact ih (k + 1) (fun s' hs' => h s' (List.mem_cons_of_mem s hs'))

/-- The oldest-slot scan keeps its current index when nothing is strictly
older. -/
lemma findOldestSlotAux_no_smaller :
    ∀ (l : List AuthSlot) (i idx oldest : Nat),
      (∀ s ∈ l, ¬(s.timestamp < oldest)) →
      findOldestSlotAux l i idx oldest = idx := by
  intro l
  induction l with
  | nil => intro _ _ _ _; rfl
  | cons s rest ih =>
    intro i idx oldest h
    rw [findOldestSlotAux, if_neg (h s (List.mem_cons_self s rest))]
    exact ih (i + 1) idx oldest (fun s' hs' => h s' (List.mem_cons_of_mem s hs'))

/-- Writing just past a prefix writes into the suffix. -/
lemma set_append_length {α : Type} (l1 l2 : List α) (a : α) :
    (l1 ++ l2).set l1.length a = l1 ++ l2.set 0 a := by
  induction l1 with
  | nil => rfl
  | cons x xs ih => simp [List.set, ih]

/-- A challenge for a fresh identity on a pool with a free slot fills that
slot. -/
lemma authGenerateChallenge_fresh (st : List AuthSlot) (ip n t f : Nat)
    (hfind : findSlotByIp st ip = none) (hfree : findFreeSlot st = some f) :
    (authGenerateChallenge st ip n t).2 = st.set f ⟨ip, n, t, true⟩ := by
  simp [authGenerateChallenge, hfind, hfree]

/-- A challenge for a fresh identity on a full pool evicts the oldest slot. -/
lemma authGenerateChallenge_evict (st : List AuthSlot) (ip n t : Nat)
    (hfind : findSlotByIp st ip = none) (hfree : findFreeSlot st = none) :
    (authGenerateChallenge st ip n t).2 =
      st.set (findOldestSlot st) ⟨ip, n, t, true⟩ := by
  simp [authGenerateChallenge, hfind, hfree]

/-- Challenges for `n ≤ 8` pairwise-distinct identities, starting from the
cleared pool, fill the first `n` slots in order and leave the rest cleared. -/
lemma challengeSeq_fills (ips ns ts : Nat → Nat)
    (hinj : ∀ j, j < 9 → ∀ k, k < 9 → j ≠ k → ips j ≠ ips k) :
    ∀ n, n ≤ 8 →
      challengeSeq ((List.range n).map fun k => (ips k, ns k, ts k))
          authInitSlots =
        ((List.range n).map fun k => AuthSlot.mk (ips k) (ns k) (ts k) true) ++
          List.replicate (8 - n) clearedSlot := by
  intro n
  induction n with
  | zero => intro _; rfl
  | succ m ih =>
    intro hm
    have hm8 : m ≤ 8 := by omega
    rw [List.range_succ, List.map_append, List.map_append, challengeSeq,
      List.foldl_append]
    have hfold : List.foldl
        (fun st t => (authGenerateChallenge st t.1 t.2.1 t.2.2).2)
        authInitSlots ((List.range m).map fun k => (ips k, ns k, ts k)) =
        ((List.range m).map fun k => AuthSlot.mk (ips k) (ns k) (ts k) true) ++
          List.replicate (8 - m) clearedSlot := ih hm8
    rw [hfold]
    have hmem : ∀ s ∈ ((List.range m).map fun k =>
        AuthSlot.mk (ips k) (ns k) (ts k) true) ++
          List.replicate (8 - m) clearedSlot,
        ¬(s.active = true ∧ s.ip = ips m) := by
      intro s hs
      rcases List.mem_append.mp hs with hs1 | hs2
      · obtain ⟨k, hk, rfl⟩ := List.mem_map.mp hs1
        have hk9 : k < 9 := by have := List.mem_range.mp hk; omega
        have hne := hinj k hk9 m (by omega) (by have := List.mem_range.mp hk; omega)
        exact fun hcon => hne hcon.2
      · rw [List.eq_of_mem_replicate hs2]
        exact fun hcon => absurd hcon.1 (by decide)
    have hfind : findSlotByIp
        (((List.range m).map fun k => AuthSlot.mk (ips k) (ns k) (ts k) true) ++
          List.replicate (8 - m) clearedSlot) (ips m) = none :=
      findSlotByIpAux_none_mem _ _ hmem 0
    have hrepl : List.replicate (8 - m) clearedSlot =
        clearedSlot :: List.replicate (7 - m) clearedSlot := by
      have : 8 - m = (7 - m) + 1 := by omega
      rw [this, List.replicate_succ]
    have hallact : ∀ s ∈ (List.range m).map fun k =>
        AuthSlot.mk (ips k) (ns k) (ts k) true, s.active = true := by
      intro s hs
      obtain ⟨k, -, rfl⟩ := List.mem_map.mp hs
      rfl
    have hfree : findFreeSlot
        (((List.range m).map fun k => AuthSlot.mk (ips k) (ns k) (ts k) true) ++
          List.replicate (8 - m) clearedSlot) = some m := by
      rw [hrepl]
      show findFreeSlotAux _ 0 = _
      rw [findFreeSlotAux_skip_active _ _ 0 hallact]
      simp
    show (authGenerateChallenge _ (ips m) (ns m) (ts m)).2 = _
    rw [authGenerateChallenge_fresh _ _ _ _ _ hfind hfree]
    have hlen : ((List.range m).map fun k =>
        AuthSlot.mk (ips k) (ns k) (ts k) true).length = m := by simp
    have hset := set_append_length
      ((List.range m).map fun k => AuthSlot.mk (ips k) (ns k) (ts k) true)
      (List.replicate (8 - m) clearedSlot)
      (⟨ips m, ns m, ts m, true⟩ : AuthSlot)
    rw [hlen] at hset
    rw [hset, hrepl]
    have h87 : 8 - (m + 1) = 7 - m := by omega
    rw [h87]
    simp [List.append_assoc]

/-- C8: starting from the cleared pool, challenges for 9 distinct identities
with strictly increasing issue times fill the 8 slots and then evict exactly
the slot with the smallest `issuedAtMs` (the first identity's): the final pool
holds identities 8, 1, 2, …, 7 in that slot order, no slot is bound to
identity 0 any more, and a subsequent `authVerify` for identity 0 fails
because no slot is found. -/
theorem c8_eviction_oldest (ips ns ts : Nat → Nat)
    (hinj : ∀ j, j < 9 → ∀ k, k < 9 → j ≠ k → ips j ≠ ips k)
    (hmono : ∀ j k, j < k → k < 9 → ts j < ts k) :
    challengeSeq ((List.range 9).map fun k => (ips k, ns k, ts k))
        authInitSlots =
      [⟨ips 8, ns 8, ts 8, true⟩, ⟨ips 1, ns 1, ts 1, true⟩,
       ⟨ips 2, ns 2, ts 2, true⟩, ⟨ips 3, ns 3, ts 3, true⟩,
       ⟨ips 4, ns 4, ts 4, true⟩, ⟨ips 5, ns 5, ts 5, true⟩,
       ⟨ips 6, ns 6, ts 6, true⟩, ⟨ips 7, ns 7, ts 7, true⟩]
    ∧ findSlotByIp
        (challengeSeq ((List.range 9).map fun k => (ips k, ns k, ts k))
          authInitSlots) (ips 0) = none
    ∧ ∀ (hmac : List Nat → List Nat → List Nat) (key : List Nat)
        (nowMs nonce : Nat) (uri payload sig : List Char),
        (authVerify hmac key nowMs
          (challengeSeq ((List.range 9).map fun k => (ips k, ns k, ts k))
            authInitSlots) (ips 0) nonce uri payload sig).1 = false := by
  have h8 := challengeSeq_fills ips ns ts hinj 8 (by omega)
  have hrange8 : List.range 8 = [0, 1, 2, 3, 4, 5, 6, 7] := by decide
  rw [hrange8] at h8
  have hfull : challengeSeq ((List.range 8).map fun k => (ips k, ns k, ts k))
      authInitSlots =
      [⟨ips 0, ns 0, ts 0, true⟩, ⟨ips 1, ns 1, ts 1, true⟩,
       ⟨ips 2, ns 2, ts 2, true⟩, ⟨ips 3, ns 3, ts 3, true⟩,
       ⟨ips 4, ns 4, ts 4, true⟩, ⟨ips 5, ns 5, ts 5, true⟩,
       ⟨ips 6, ns 6, ts 6, true⟩, ⟨ips 7, ns 7, ts 7, true⟩] := by
    rw [hrange8]
    simpa using h8
  have hstep9 : challengeSeq ((List.range 9).map fun k => (ips k, ns k, ts k))
      authInitSlots =
      [⟨ips 8, ns 8, ts 8, true⟩, ⟨ips 1, ns 1, ts 1, true⟩,
       ⟨ips 2, ns 2, ts 2, true⟩, ⟨ips 3, ns 3, ts 3, true⟩,
       ⟨ips 4, ns 4, ts 4, true⟩, ⟨ips 5, ns 5, ts 5, true⟩,
       ⟨ips 6, ns 6, ts 6, true⟩, ⟨ips 7, ns 7, ts 7, true⟩] := by
    have hrange9 : List.range 9 = List.range 8 ++ [8] := by decide
    rw [hrange9, List.map_append, challengeSeq, List.foldl_append]
    have hfold : List.foldl
        (fun st t => (authGenerateChallenge st t.1 t.2.1 t.2.2).2)
        authInitSlots ((List.range 8).map fun k => (ips k, ns k, ts k)) =
        [⟨ips 0, ns 0, ts 0, true⟩, ⟨ips 1, ns 1, ts 1, true⟩,
         ⟨ips 2, ns 2, ts 2, true⟩, ⟨ips 3, ns 3, ts 3, true⟩,
         ⟨ips 4, ns 4, ts 4, true⟩, ⟨ips 5, ns 5, ts 5, true⟩,
         ⟨ips 6, ns 6, ts 6, true⟩, ⟨ips 7, ns 7, ts 7, true⟩] := hfull
    rw [hfold]
    have hmem : ∀ s ∈ ([⟨ips 0, ns 0, ts 0, true⟩, ⟨ips 1, ns 1, ts 1, true⟩,
        ⟨ips 2, ns 2, ts 2, true⟩, ⟨ips 3, ns 3, ts 3, true⟩,
        ⟨ips 4, ns 4, ts 4, true⟩, ⟨ips 5, ns 5, ts 5, true⟩,
        ⟨ips 6, ns 6, ts 6, true⟩, ⟨ips 7, ns 7, ts 7, true⟩] :
          List AuthSlot),
        ¬(s.active = true ∧ s.ip = ips 8) := by
      intro s hs
      simp only [List.mem_cons, List.not_mem_nil, or_false] at hs
      rcases hs with rfl | rfl | rfl | rfl | rfl | rfl | rfl | rfl <;>
        exact fun hcon =>
          hinj _ (by omega) 8 (by omega) (by omega) hcon.2
    have hfind : findSlotByIp ([⟨ips 0, ns 0, ts 0, true⟩,
        ⟨ips 1, ns 1, ts 1, true⟩, ⟨ips 2, ns 2, ts 2, true⟩,
        ⟨ips 3, ns 3, ts 3, true⟩, ⟨ips 4, ns 4, ts 4, true⟩,
        ⟨ips 5, ns 5, ts 5, true⟩, ⟨ips 6, ns 6, ts 6, true⟩,
        ⟨ips 7, ns 7, ts 7, true⟩] : List AuthSlot) (ips 8) = none :=
      findSlotByIpAux_none_mem _ _ hmem 0
    have hallact : ∀ s ∈ ([⟨ips 0, ns 0, ts 0, true⟩,
        ⟨ips 1, ns 1, ts 1, true⟩, ⟨ips 2, ns 2, ts 2, true⟩,
        ⟨ips 3, ns 3, ts 3, true⟩, ⟨ips 4, ns 4, ts 4, true⟩,
        ⟨ips 5, ns 5, ts 5, true⟩, ⟨ips 6, ns 6, ts 6, true⟩,
        ⟨ips 7, ns 7, ts 7, true⟩] : List AuthSlot), s.active = true := by
      intro s hs
      simp only [List.mem_cons, List.not_mem_nil, or_false] at hs
      rcases hs with rfl | rfl | rfl | rfl | rfl | rfl | rfl | rfl <;> rfl
    have hfree := findFreeSlotAux_all_active _ 0 hallact
    have hm1 := hmono 0 1 (by omega) (by omega)
    have hm2 := hmono 0 2 (by omega) (by omega)
    have hm3 := hmono 0 3 (by omega) (by omega)
    have hm4 := hmono 0 4 (by omega) (by omega)
    have hm5 := hmono 0 5 (by omega) (by omega)
    have hm6 := hmono 0 6 (by omega) (by omega)
    have hm7 := hmono 0 7 (by omega) (by omega)
    have holder : findOldestSlot ([⟨ips 0, ns 0, ts 0, true⟩,
        ⟨ips 1, ns 1, ts 1, true⟩, ⟨ips 2, ns 2, ts 2, true⟩,
        ⟨ips 3, ns 3, ts 3, true⟩, ⟨ips 4, ns 4, ts 4, true⟩,
        ⟨ips 5, ns 5, ts 5, true⟩, ⟨ips 6, ns 6, ts 6, true⟩,
        ⟨ips 7, ns 7, ts 7, true⟩] : List AuthSlot) = 0 := by
      show findOldestSlotAux _ 1 0 (ts 0) = 0
      apply findOldestSlotAux_no_smaller
      intro s hs
      simp only [List.mem_cons, List.not_mem_nil, or_false] at hs
      rcases hs with rfl | rfl | rfl | rfl | rfl | rfl | rfl <;>
        · show ¬(ts _ < ts 0)
          omega
    show (authGenerateChallenge _ (ips 8) (ns 8) (ts 8)).2 = _
    rw [authGenerateChallenge_evict _ _ _ _ hfind hfree, holder]
    rfl
  refine ⟨hstep9, ?_, ?_⟩
  · rw [hstep9]
    apply findSlotByIpAux_none_mem
    intro s hs
    simp only [List.mem_cons, List.not_mem_nil, or_false] at hs
    rcases hs with rfl | rfl | rfl | rfl | rfl | rfl | rfl | rfl <;>
      exact fun hcon => hinj _ (by omega) 0 (by omega) (by omega) hcon.2
  · intro hmac key nowMs nonce uri payload sig
    have hnone : findSlotByIp
        (challengeSeq ((List.range 9).map fun k => (ips k, ns k, ts k))
          authInitSlots) (ips 0) = none := by
      rw [hstep9]
      apply findSlotByIpAux_none_mem
      intro s hs
      simp only [List.mem_cons, List.not_mem_nil, or_false] at hs
      rcases hs with rfl | rfl | rfl | rfl | rfl | rfl | rfl | rfl <;>
        exact fun hcon => hinj _ (by omega) 0 (by omega) (by omega) hcon.2
    rw [hstep9] at hnone ⊢
    simp only [authVerify, hnone]

/-- Witness for C8 with identities 0–8, nonces 0 and issue times 0–8. -/
theorem c8_eviction_oldest_witness :
    ((∀ j, j < 9 → ∀ k, k < 9 → j ≠ k → j ≠ k) ∧
     (∀ j k : Nat, j < k → k < 9 → j < k)) ∧
    (challengeSeq ((List.range 9).map fun k => (k, 0, k)) authInitSlots =
      [⟨8, 0, 8, true⟩, ⟨1, 0, 1, true⟩, ⟨2, 0, 2, true⟩, ⟨3, 0, 3, true⟩,
       ⟨4, 0, 4, true⟩, ⟨5, 0, 5, true⟩, ⟨6, 0, 6, true⟩, ⟨7, 0, 7, true⟩]
    ∧ findSlotByIp
        (challengeSeq ((List.range 9).map fun k => (k, 0, k)) authInitSlots)
        0 = none
    ∧ ∀ (hmac : List Nat → List Nat → List Nat) (key : List Nat)
        (nowMs nonce : Nat) (uri payload sig : List Char),
        (authVerify hmac key nowMs
          (challengeSeq ((List.range 9).map fun k => (k, 0, k)) authInitSlots)
          0 nonce uri payload sig).1 = false) :=
  ⟨⟨fun _ _ _ _ h => h, fun _ _ h _ => h⟩,
   c8_eviction_oldest (fun k => k) (fun _ => 0) (fun k => k)
     (fun _ _ _ _ h => h) (fun _ _ h _ => h)⟩

/-! ## Claim C2 -/

/-- C2 (evaluation at the failing input): with authentication enabled and both
headers present, `checkAuth` invoked the way every handler in `ApiHandle.cpp`
invokes it — with an empty `JsonDocument()` — hands `authVerify` the empty
payload, not the literal body bytes of the PATCH request, so a signature
computed over the body bytes (as the repository's own console and README
prescribe) is verified against the wrong string. -/
theorem c2_verified_payload_is_empty_not_body :
    (checkAuth (fun _ _ => List.replicate 32 0) (List.replicate 32 0) true 0
      [⟨1, 5, 0, true⟩] JsonDoc.null
      ⟨"/api/pin/set".data, "\x7b\"id\":\"GPIO4\",\"state\":1\x7d".data, 1,
       some "5".data, some "00".data⟩).verifiedPayload = some [] ∧
    "\x7b\"id\":\"GPIO4\",\"state\":1\x7d".data ≠ ([] : List Char) := by
  decide

/-! ## Cron lemmas: no cron-table persistence inside the loop -/

/-- `deviceSet` writes at most the GPIO table. -/
lemma deviceSet_effs (readFn : Nat → Int) (a0 : Int) (gpio : List GpioConfig)
    (config : GpioConfig) :
    (deviceSet readFn a0 gpio config).2.2 = [] ∨
    (deviceSet readFn a0 gpio config).2.2 = [Eff.wroteGpioTable] := by
  cases hmode : config.mode <;>
    simp only [deviceSet, hmode] <;> split_ifs <;> simp

/-- `deviceSet` never writes the cron table. -/
lemma deviceSet_no_cron_write (readFn : Nat → Int) (a0 : Int)
    (gpio : List GpioConfig) (config : GpioConfig) :
    Eff.wroteCronTable ∉ (deviceSet readFn a0 gpio config).2.2 := by
  rcases deviceSet_effs readFn a0 gpio config with h | h <;> simp [h]

/-- The job scan of the scheduler loop never writes the cron table. -/
lemma runJobsAux_no_cron_write (tmOf : Nat → Option Tm)
    (readFn : Nat → Int) (a0 : Int) (ep : Nat) :
    ∀ (jobs : List CronJob) (gpio : List GpioConfig)
      (r : List CronJob × List GpioConfig × List Eff),
      runJobsAux tmOf readFn a0 ep jobs gpio = some r →
      Eff.wroteCronTable ∉ r.2.2 := by
  intro jobs
  induction jobs with
  | nil =>
    intro gpio r h
    rw [runJobsAux] at h
    injection h with h'
    subst h'
    simp
  | cons job rest ih =>
    intro gpio r h
    rw [runJobsAux] at h
    by_cases hcond : (job.active && cronMatch tmOf job ep) = true
    · rw [if_pos hcond] at h
      cases hdg : deviceGet gpio job.pin with
      | none => rw [hdg] at h; exact absurd h (by simp)
      | some existing =>
        simp only [hdg] at h
        cases hact : job.action with
        | Reboot =>
          simp only [hact] at h
          injection h with h'
          subst h'
          simp
        | HttpRequest =>
          simp only [hact] at h
          cases hrec : runJobsAux tmOf readFn a0 ep rest gpio with
          | none => rw [hrec] at h; exact absurd h (by simp)
          | some r' =>
            obtain ⟨rest', gpio', effs⟩ := r'
            simp only [hrec] at h
            injection h with h'
            subst h'
            have hrec' := ih gpio (rest', gpio', effs) hrec
            simp at hrec' ⊢
            exact hrec'
        | SetPinState =>
          simp only [hact] at h
          cases hrec : runJobsAux tmOf readFn a0 ep rest
              (deviceSet readFn a0 gpio { existing with state := job.value }).2.1 with
          | none => rw [hrec] at h; exact absurd h (by simp)
          | some r' =>
            obtain ⟨rest', gpio', effs⟩ := r'
            simp only [hrec] at h
            injection h with h'
            subst h'
            have hrec' := ih _ (rest', gpio', effs) hrec
            intro hmem
            rcases List.mem_cons.mp hmem with he | hmem2
            · exact Eff.noConfusion he
            rcases List.mem_append.mp hmem2 with hmem3 | hmem4
            · exact deviceSet_no_cron_write readFn a0 gpio _ hmem3
            rcases List.mem_cons.mp hmem4 with he | hmem5
            · exact Eff.noConfusion he
            · exact hrec' hmem5
        | TogglePinState =>
          simp only [hact] at h
          cases hrec : runJobsAux tmOf readFn a0 ep rest
              (deviceSet readFn a0 gpio
                { existing with
                  state := if existing.state ≠ 0 then 0 else 1 }).2.1 with
          | none => rw [hrec] at h; exact absurd h (by simp)
          | some r' =>
            obtain ⟨rest', gpio', effs⟩ := r'
            simp only [hrec] at h
            injection h with h'
            subst h'
            have hrec' := ih _ (rest', gpio', effs) hrec
            intro hmem
            rcases List.mem_cons.mp hmem with he | hmem2
            · exact Eff.noConfusion he
            rcases List.mem_append.mp hmem2 with hmem3 | hmem4
            · exact deviceSet_no_cron_write readFn a0 gpio _ hmem3
            rcases List.mem_cons.mp hmem4 with he | hmem5
            · exact Eff.noConfusion he
            · exact hrec' hmem5
    · rw [if_neg hcond] at h
      cases hrec : runJobsAux tmOf readFn a0 ep rest gpio with
      | none => rw [hrec] at h; exact absurd h (by simp)
      | some r' =>
        obtain ⟨rest', gpio', effs⟩ := r'
        simp only [hrec] at h
        injection h with h'
        subst h'
        exact ih gpio (rest', gpio', effs) hrec

/-! ## Cron lemmas: shape of one scheduler pass -/

/-- Jobs that are inactive or out of window leave the scan unchanged. -/
lemma runJobsAux_all_skip (tmOf : Nat → Option Tm) (readFn : Nat → Int)
    (a0 : Int) (ep : Nat) :
    ∀ (jobs : List CronJob) (gpio : List GpioConfig),
      (∀ j ∈ jobs, (j.active && cronMatch tmOf j ep) = false) →
      runJobsAux tmOf readFn a0 ep jobs gpio = some (jobs, gpio, []) := by
  intro jobs
  induction jobs with
  | nil => intro gpio _; rfl
  | cons job rest ih =>
    intro gpio h
    rw [runJobsAux,
      if_neg (by simp [h job (List.mem_cons_self job rest)]),
      ih gpio (fun j hj => h j (List.mem_cons_of_mem job hj))]

/-- A prefix of inactive/out-of-window jobs passes through the scan. -/
lemma runJobsAux_prefix_skip (tmOf : Nat → Option Tm) (readFn : Nat → Int)
    (a0 : Int) (ep : Nat) :
    ∀ (pre l : List CronJob) (gpio : List GpioConfig),
      (∀ j ∈ pre, (j.active && cronMatch tmOf j ep) = false) →
      runJobsAux tmOf readFn a0 ep (pre ++ l) gpio =
        (runJobsAux tmOf readFn a0 ep l gpio).map
          (fun r => (pre ++ r.1, r.2.1, r.2.2)) := by
  intro pre
  induction pre with
  | nil =>
    intro l gpio _
    show runJobsAux tmOf readFn a0 ep l gpio = _
    cases runJobsAux tmOf readFn a0 ep l gpio with
    | none => rfl
    | some r => rfl
  | cons job rest ih =>
    intro l gpio h
    show runJobsAux tmOf readFn a0 ep (job :: (rest ++ l)) gpio = _
    rw [runJobsAux,
      if_neg (by simp [h job (List.mem_cons_self job rest)]),
      ih l gpio (fun j hj => h j (List.mem_cons_of_mem job hj))]
    cases runJobsAux tmOf readFn a0 ep l gpio with
    | none => rfl
    | some r => rfl

/-- One matched `SetPinState` job surrounded by skipped jobs: the action call,
the device-layer effects and the `lastExecEpoch` stamp, in order. -/
lemma runJobsAux_single_fire (tmOf : Nat → Option Tm) (readFn : Nat → Int)
    (a0 : Int) (ep : Nat) (pre post : List CronJob) (job : CronJob)
    (gpio : List GpioConfig) (ex : GpioConfig)
    (hpre : ∀ j ∈ pre, (j.active && cronMatch tmOf j ep) = false)
    (hpost : ∀ j ∈ post, (j.active && cronMatch tmOf j ep) = false)
    (hcond : (job.active && cronMatch tmOf job ep) = true)
    (haction : job.action = CronAction.SetPinState)
    (hdg : deviceGet gpio job.pin = some ex) :
    runJobsAux tmOf readFn a0 ep (pre ++ job :: post) gpio =
      some (pre ++ { job with lastExecEpoch := ep } :: post,
        (deviceSet readFn a0 gpio { ex with state := job.value }).2.1,
        Eff.setCall job.pin ::
          ((deviceSet readFn a0 gpio { ex with state := job.value }).2.2 ++
            [Eff.fired])) := by
  rw [runJobsAux_prefix_skip tmOf readFn a0 ep pre (job :: post) gpio hpre,
    runJobsAux, if_pos hcond]
  simp only [hdg, haction]
  rw [runJobsAux_all_skip tmOf readFn a0 ep post _ hpost]
  rfl

/-- A tick whose jobs are all inactive or out of window changes at most
`lastPrint` and performs nothing. -/
lemma tick_noop (tmOf : Nat → Option Tm) (readFn : Nat → Int) (a0 : Int)
    (ms ep : Nat) (st : CronState)
    (h : ∀ j ∈ st.jobs, (j.active && cronMatch tmOf j ep) = false) :
    ∃ lp, cronSchedulerLoop tmOf readFn a0 ms ep st =
      some (⟨lp, st.jobs, st.gpio⟩, []) := by
  by_cases ht : sub32 ms st.lastPrint ≥ 1000
  · refine ⟨ms, ?_⟩
    rw [cronSchedulerLoop, if_pos ht]
    simp only [runJobsAux_all_skip tmOf readFn a0 ep st.jobs st.gpio h]
  · refine ⟨st.lastPrint, ?_⟩
    rw [cronSchedulerLoop, if_neg ht]

/-- 32-bit subtraction of in-range, ordered operands is plain subtraction. -/
lemma sub32_of_le {a b : Nat} (h1 : a ≤ b) (h2 : b < U32) :
    sub32 b a = b - a := by
  unfold sub32 U32
  unfold U32 at h2
  omega

/-- A job whose `lastExecEpoch` lies within the tolerance window of the
current time never matches (the anti-replay check). -/
lemma cronMatch_replay_false (tmOf : Nat → Option Tm) (job : CronJob)
    (ep : Nat) (h : sub32 ep job.lastExecEpoch ≤ CRON_EXEC_WINDOW_SEC) :
    cronMatch tmOf job ep = false := by
  unfold cronMatch
  cases tmOf ep with
  | none => rfl
  | some t =>
    simp only
    split_ifs with hf
    · rfl
    · have hrep : decide (sub32 ep job.lastExecEpoch > CRON_EXEC_WINDOW_SEC) =
          false := by
        simp only [decide_eq_false_iff_not]
        omega
      simp [hrep]

/-! ## Claim C3 -/

/-- C3 counterexample: a tick in which a job fires — its action is performed
and its `lastExecEpoch` is stamped to the current time — performs no write of
the cron job table to storage, so the firing would not survive a power loss. -/
theorem c3_fired_tick_writes_no_cron_table :
    (cronSchedulerLoop (fun _ => some ⟨0, 0, 0, 1, 0, 4⟩) (fun _ => 0) 0 1000 120
      ⟨0, ⟨true, "* * * * *".data, CronAction.SetPinState, 4, 1, 0⟩ ::
        List.replicate 31 ⟨false, [], CronAction.SetPinState, 0, 0, 0⟩,
       (List.range 18).map fun i => ⟨i, PinMode.Output, 0⟩⟩).map
      (fun r => (decide (Eff.fired ∈ r.2),
        decide (Eff.wroteCronTable ∈ r.2),
        (r.1.jobs.getD 0
          ⟨false, [], CronAction.SetPinState, 0, 0, 0⟩).lastExecEpoch)) =
    some (true, false, 120) := by decide

/-- C3 (amended): when a tick fires a job, the scheduler updates the job's
`lastFiredEpoch` in memory only — no tick ever writes the cron job table to
storage; the table reaches storage only through `setCronJob`, which persists
it on every in-range call. -/
theorem c3_tick_never_persists_cron_table (tmOf : Nat → Option Tm)
    (readFn : Nat → Int) (a0 : Int) (nowMs epochNow : Nat) (st : CronState)
    (st' : CronState) (effs : List Eff)
    (h : cronSchedulerLoop tmOf readFn a0 nowMs epochNow st = some (st', effs)) :
    Eff.wroteCronTable ∉ effs
    ∧ ∀ (storageOk : Bool) (jobs : List CronJob) (idx : Nat) (job : CronJob),
        idx < MAX_CRON_JOBS →
        (setCronJob storageOk jobs idx job).2.2 = [Eff.wroteCronTable] := by
  constructor
  · by_cases ht : sub32 nowMs st.lastPrint ≥ 1000
    · rw [cronSchedulerLoop, if_pos ht] at h
      cases hrec : runJobsAux tmOf readFn a0 epochNow st.jobs st.gpio with
      | none => rw [hrec] at h; exact absurd h (by simp)
      | some r =>
        obtain ⟨jobs', gpio', effs'⟩ := r
        simp only [hrec] at h
        injection h with h1
        have h2 : effs' = effs := congrArg Prod.snd h1
        subst h2
        exact runJobsAux_no_cron_write tmOf readFn a0 epochNow st.jobs st.gpio
          (jobs', gpio', effs') hrec
    · rw [cronSchedulerLoop, if_neg ht] at h
      injection h with h1
      have h2 : ([] : List Eff) = effs := congrArg Prod.snd h1
      rw [← h2]
      simp
  · intro storageOk jobs idx job hidx
    rw [setCronJob, if_neg (by omega)]

/-- Witness for C3 (amended) at a concrete throttled tick. -/
theorem c3_tick_never_persists_cron_table_witness :
    cronSchedulerLoop (fun _ => none) (fun _ => 0) 0 500 0
      ⟨0, [], []⟩ = some (⟨0, [], []⟩, []) ∧
    (Eff.wroteCronTable ∉ ([] : List Eff)
    ∧ ∀ (storageOk : Bool) (jobs : List CronJob) (idx : Nat) (job : CronJob),
        idx < MAX_CRON_JOBS →
        (setCronJob storageOk jobs idx job).2.2 = [Eff.wroteCronTable]) :=
  ⟨by decide,
   c3_tick_never_persists_cron_table (fun _ => none) (fun _ => 0) 0 500 0
     ⟨0, [], []⟩ ⟨0, [], []⟩ [] (by decide)⟩

/-! ## Claim C10 -/

/-- C10 counterexample: a matched active job whose `targetPin` is invalid
(GPIO6, a flash pin) makes the loop dereference the null pointer returned by
`deviceGet` — the tick faults (modelled `none`) instead of running to
completion, and no `lastFiredEpoch` is stamped. -/
theorem c10_invalid_pin_faults :
    cronMatch (fun _ => some ⟨0, 0, 0, 1, 0, 4⟩)
      ⟨true, "* * * * *".data, CronAction.SetPinState, 6, 1, 0⟩ 120 = true ∧
    deviceGet ((List.range 18).map fun i => ⟨i, PinMode.Output, 0⟩) 6 = none ∧
    cronSchedulerLoop (fun _ => some ⟨0, 0, 0, 1, 0, 4⟩) (fun _ => 0) 0 1000 120
      ⟨0, ⟨true, "* * * * *".data, CronAction.SetPinState, 6, 1, 0⟩ ::
        List.replicate 31 ⟨false, [], CronAction.SetPinState, 0, 0, 0⟩,
       (List.range 18).map fun i => ⟨i, PinMode.Output, 0⟩⟩ = none := by
  decide

/-- C10 (amended): a matched active job whose `targetPin` is valid but
unavailable (its `deviceSet` call fails and leaves the pin table untouched)
silently fails to apply its action — the tick runs to completion — and still
updates the job's `lastFiredEpoch` to the current time; a job with an invalid
pin instead faults the tick (see the counterexample). -/
theorem c10_unavailable_pin_silent_fail (tmOf : Nat → Option Tm)
    (readFn : Nat → Int) (a0 : Int) (pre post : List CronJob) (job : CronJob)
    (ex : GpioConfig) (gpio : List GpioConfig) (lp ms ep : Nat)
    (hpre : ∀ j ∈ pre, (j.active && cronMatch tmOf j ep) = false)
    (hpost : ∀ j ∈ post, (j.active && cronMatch tmOf j ep) = false)
    (hcond : (job.active && cronMatch tmOf job ep) = true)
    (haction : job.action = CronAction.SetPinState)
    (hdg : deviceGet gpio job.pin = some ex)
    (hfail : deviceSet readFn a0 gpio { ex with state := job.value } =
      (false, gpio, []))
    (hthrottle : sub32 ms lp ≥ 1000) :
    cronSchedulerLoop tmOf readFn a0 ms ep ⟨lp, pre ++ job :: post, gpio⟩ =
      some (⟨ms, pre ++ { job with lastExecEpoch := ep } :: post, gpio⟩,
        [Eff.setCall job.pin, Eff.fired]) := by
  rw [cronSchedulerLoop, if_pos hthrottle]
  have hinner := runJobsAux_single_fire tmOf readFn a0 ep pre post job gpio ex
    hpre hpost hcond haction hdg
  rw [hfail] at hinner
  simp only [hinner]
  rfl

/-- Witness for C10 (amended): GPIO16 in Output mode — a valid pin that
`deviceSet` refuses (`gpioIsSafeOutput 16 = false`). -/
theorem c10_unavailable_pin_silent_fail_witness :
    ((∀ j ∈ ([] : List CronJob), (j.active &&
        cronMatch (fun _ => some ⟨0, 0, 0, 1, 0, 4⟩) j 120) = false) ∧
     ((⟨true, "* * * * *".data, CronAction.SetPinState, 16, 1, 0⟩ :
        CronJob).active &&
        cronMatch (fun _ => some ⟨0, 0, 0, 1, 0, 4⟩)
          ⟨true, "* * * * *".data, CronAction.SetPinState, 16, 1, 0⟩ 120) =
        true ∧
     deviceGet ((List.range 18).map fun i => ⟨i, PinMode.Output, 0⟩) 16 =
       some ⟨16, PinMode.Output, 0⟩ ∧
     deviceSet (fun _ => 0) 0 ((List.range 18).map fun i => ⟨i, PinMode.Output, 0⟩)
       ⟨16, PinMode.Output, 1⟩ =
       (false, (List.range 18).map fun i => ⟨i, PinMode.Output, 0⟩, []) ∧
     sub32 1000 0 ≥ 1000) ∧
    cronSchedulerLoop (fun _ => some ⟨0, 0, 0, 1, 0, 4⟩) (fun _ => 0) 0 1000 120
      ⟨0, [] ++ (⟨true, "* * * * *".data, CronAction.SetPinState, 16, 1, 0⟩ :
        CronJob) :: [],
       (List.range 18).map fun i => ⟨i, PinMode.Output, 0⟩⟩ =
      some (⟨1000, [] ++
        (⟨true, "* * * * *".data, CronAction.SetPinState, 16, 1, 120⟩ :
          CronJob) :: [],
        (List.range 18).map fun i => ⟨i, PinMode.Output, 0⟩⟩,
        [Eff.setCall 16, Eff.fired]) :=
  ⟨⟨by decide, by decide, by decide, by decide, by decide⟩,
   c10_unavailable_pin_silent_fail (fun _ => some ⟨0, 0, 0, 1, 0, 4⟩)
     (fun _ => 0) 0 [] []
     ⟨true, "* * * * *".data, CronAction.SetPinState, 16, 1, 0⟩
     ⟨16, PinMode.Output, 0⟩
     ((List.range 18).map fun i => ⟨i, PinMode.Output, 0⟩) 0 1000 120
     (by decide) (by decide) (by decide) (by decide) (by decide) (by decide)
     (by decide)⟩

/-! ## Claim C6 -/

/-- C6 counterexample: four tick invocations whose epochs all lie in the same
2-second window of a matching minute, but whose `millis()` readings are all
within 1000 ms of the loop's `lastPrint` throttle, fire the job zero times —
not exactly once — and leave `lastFiredEpoch` untouched. -/
theorem c6_throttled_ticks_fire_zero_times :
    cronMatch (fun e => some ⟨(e % 60 : Nat), 2, 0, 1, 0, 1⟩)
      ⟨true, "* * * * *".data, CronAction.SetPinState, 4, 1, 0⟩ 120 = true ∧
    cronMatch (fun e => some ⟨(e % 60 : Nat), 2, 0, 1, 0, 1⟩)
      ⟨true, "* * * * *".data, CronAction.SetPinState, 4, 1, 0⟩ 122 = true ∧
    runTicks (fun e => some ⟨(e % 60 : Nat), 2, 0, 1, 0, 1⟩) (fun _ => 0) 0
      [(5100, 120), (5600, 120), (5900, 121), (5950, 122)]
      ⟨5000, ⟨true, "* * * * *".data, CronAction.SetPinState, 4, 1, 0⟩ ::
        List.replicate 31 ⟨false, [], CronAction.SetPinState, 0, 0, 0⟩,
       (List.range 18).map fun i => ⟨i, PinMode.Output, 0⟩⟩ =
      some (⟨5000, ⟨true, "* * * * *".data, CronAction.SetPinState, 4, 1, 0⟩ ::
        List.replicate 31 ⟨false, [], CronAction.SetPinState, 0, 0, 0⟩,
       (List.range 18).map fun i => ⟨i, PinMode.Output, 0⟩⟩, []) := by
  decide

/-- Repeated ticks over a state whose jobs are all inactive or out of window
accumulate no effects and leave the job and pin tables unchanged. -/
lemma runTicks_noop_all (tmOf : Nat → Option Tm) (readFn : Nat → Int)
    (a0 : Int) :
    ∀ (ticks : List (Nat × Nat)) (st : CronState),
      (∀ t ∈ ticks, ∀ j ∈ st.jobs, (j.active && cronMatch tmOf j t.2) = false) →
      ∃ lp, runTicks tmOf readFn a0 ticks st =
        some (⟨lp, st.jobs, st.gpio⟩, []) := by
  intro ticks
  induction ticks with
  | nil =>
    intro st _
    exact ⟨st.lastPrint, rfl⟩
  | cons t rest ih =>
    intro st h
    obtain ⟨ms, ep⟩ := t
    obtain ⟨lp1, h1⟩ := tick_noop tmOf readFn a0 ms ep st
      (h (ms, ep) (List.mem_cons_self _ _))
    obtain ⟨lp2, h2⟩ := ih ⟨lp1, st.jobs, st.gpio⟩
      (fun t' ht' j hj => h t' (List.mem_cons_of_mem _ ht') j hj)
    refine ⟨lp2, ?_⟩
    rw [runTicks]
    simp only [h1, h2]
    rfl

/-- At-most-once firing over any tick sequence with in-window, non-decreasing
epochs: whatever the `millis()` guard does at each tick, a `SetPinState` job
fires at most once, because the first firing moves `lastExecEpoch` into the
window and the anti-replay check blocks every later in-window evaluation. -/
lemma c6_at_most_once_aux (tmOf : Nat → Option Tm) (readFn : Nat → Int)
    (a0 : Int) (pre post : List CronJob) (job : CronJob) (m : Nat)
    (hpre : ∀ j ∈ pre, j.active = false)
    (hpost : ∀ j ∈ post, j.active = false)
    (hact : job.active = true)
    (haction : job.action = CronAction.SetPinState)
    (hU : m + CRON_EXEC_WINDOW_SEC < U32) :
    ∀ (ticks : List (Nat × Nat)) (lp : Nat) (gpio : List GpioConfig),
      (∃ ex, deviceGet gpio job.pin = some ex) →
      (∀ t ∈ ticks, m ≤ t.2 ∧ t.2 ≤ m + CRON_EXEC_WINDOW_SEC) →
      List.Pairwise (fun a b : Nat × Nat => a.2 ≤ b.2) ticks →
      ∃ (stF : CronState) (effs : List Eff),
        runTicks tmOf readFn a0 ticks ⟨lp, pre ++ job :: post, gpio⟩ =
          some (stF, effs)
        ∧ effs.count Eff.fired ≤ 1
        ∧ effs.count (Eff.setCall job.pin) ≤ 1 := by
  intro ticks
  induction ticks with
  | nil =>
    intro lp gpio _ _ _
    exact ⟨⟨lp, pre ++ job :: post, gpio⟩, [], rfl, by simp, by simp⟩
  | cons t rest ih =>
    intro lp gpio hex hwin hsort
    obtain ⟨ms, ep⟩ := t
    rw [List.pairwise_cons] at hsort
    obtain ⟨hhead, hrest⟩ := hsort
    have hepw : m ≤ ep ∧ ep ≤ m + CRON_EXEC_WINDOW_SEC :=
      hwin (ms, ep) (List.mem_cons_self _ _)
    by_cases hthr : sub32 ms lp ≥ 1000
    · by_cases hm : cronMatch tmOf job ep = true
      · obtain ⟨ex, hdg⟩ := hex
        have hpre' : ∀ j ∈ pre, (j.active && cronMatch tmOf j ep) = false :=
          fun j hj => by simp [hpre j hj]
        have hpost' : ∀ j ∈ post, (j.active && cronMatch tmOf j ep) = false :=
          fun j hj => by simp [hpost j hj]
        have hcond : (job.active && cronMatch tmOf job ep) = true := by
          simp [hact, hm]
        have hinner := runJobsAux_single_fire tmOf readFn a0 ep pre post job
          gpio ex hpre' hpost' hcond haction hdg
        have htick : cronSchedulerLoop tmOf readFn a0 ms ep
            ⟨lp, pre ++ job :: post, gpio⟩ =
            some (⟨ms, pre ++ { job with lastExecEpoch := ep } :: post,
              (deviceSet readFn a0 gpio { ex with state := job.value }).2.1⟩,
              Eff.setCall job.pin ::
                ((deviceSet readFn a0 gpio
                  { ex with state := job.value }).2.2 ++ [Eff.fired])) := by
          rw [cronSchedulerLoop, if_pos hthr]
          simp only [hinner]
        have hnomore : ∀ t' ∈ rest,
            ∀ j ∈ pre ++ { job with lastExecEpoch := ep } :: post,
              (j.active && cronMatch tmOf j t'.2) = false := by
          intro t' ht' j hj
          rcases List.mem_append.mp hj with hj1 | hj2
          · simp [hpre j hj1]
          rcases List.mem_cons.mp hj2 with rfl | hj3
          · have ht'w := hwin t' (List.mem_cons_of_mem _ ht')
            have hrep : cronMatch tmOf { job with lastExecEpoch := ep } t'.2 =
                false := by
              apply cronMatch_replay_false
              show sub32 t'.2 ep ≤ CRON_EXEC_WINDOW_SEC
              rw [sub32_of_le (hhead t' ht') (by omega)]
              omega
            simp [hrep]
          · simp [hpost j hj3]
        obtain ⟨lp2, hrest2⟩ := runTicks_noop_all tmOf readFn a0 rest
          ⟨ms, pre ++ { job with lastExecEpoch := ep } :: post,
            (deviceSet readFn a0 gpio { ex with state := job.value }).2.1⟩
          hnomore
        refine ⟨⟨lp2, pre ++ { job with lastExecEpoch := ep } :: post,
            (deviceSet readFn a0 gpio { ex with state := job.value }).2.1⟩,
          (Eff.setCall job.pin ::
            ((deviceSet readFn a0 gpio { ex with state := job.value }).2.2 ++
              [Eff.fired])) ++ [], ?_, ?_, ?_⟩
        · rw [runTicks]
          simp only [htick, hrest2]
        · rcases deviceSet_effs readFn a0 gpio { ex with state := job.value }
            with hdev | hdev <;> rw [hdev] <;>
            simp [List.count_cons, List.count_append]
        · rcases deviceSet_effs readFn a0 gpio { ex with state := job.value }
            with hdev | hdev <;> rw [hdev] <;>
            simp [List.count_cons, List.count_append]
      · have hnoop : ∀ j ∈ (⟨lp, pre ++ job :: post, gpio⟩ : CronState).jobs,
            (j.active && cronMatch tmOf j ep) = false := by
          intro j hj
          rcases List.mem_append.mp hj with hj1 | hj2
          · simp [hpre j hj1]
          rcases List.mem_cons.mp hj2 with rfl | hj3
          · simp [hm]
          · simp [hpost j hj3]
        obtain ⟨lp1, htick⟩ := tick_noop tmOf readFn a0 ms ep
          ⟨lp, pre ++ job :: post, gpio⟩ hnoop
        obtain ⟨stF, effs, hrun, hc1, hc2⟩ := ih lp1 gpio hex
          (fun t' ht' => hwin t' (List.mem_cons_of_mem _ ht')) hrest
        refine ⟨stF, [] ++ effs, ?_, by simpa using hc1, by simpa using hc2⟩
        rw [runTicks]
        simp only [htick, hrun]
    · have htick : cronSchedulerLoop tmOf readFn a0 ms ep
          ⟨lp, pre ++ job :: post, gpio⟩ =
          some (⟨lp, pre ++ job :: post, gpio⟩, []) := by
        rw [cronSchedulerLoop, if_neg hthr]
      obtain ⟨stF, effs, hrun, hc1, hc2⟩ := ih lp gpio hex
        (fun t' ht' => hwin t' (List.mem_cons_of_mem _ ht')) hrest
      refine ⟨stF, [] ++ effs, ?_, by simpa using hc1, by simpa using hc2⟩
      rw [runTicks]
      simp only [htick, hrun]

/-- C6 (amended): for an active `SetPinState` job due in the 2-second window
around a matching minute and any four tick invocations with non-decreasing
epochs inside that window, the job's action is invoked at most once and
`lastFiredEpoch` updated at most once, whatever the loop's once-per-second
`millis()` guard does at each tick; and it is invoked exactly once, with
`lastFiredEpoch` stamped exactly once (to the first tick's epoch), provided
the first tick passes that guard.  Later ticks are either suppressed by the
guard or blocked by the `lastFiredEpoch` anti-replay check. -/
theorem c6_firing_bound (tmOf : Nat → Option Tm) (readFn : Nat → Int)
    (a0 : Int) (pre post : List CronJob) (job : CronJob) (ex : GpioConfig)
    (gpio : List GpioConfig) (lp : Nat) (m ms1 e1 ms2 e2 ms3 e3 ms4 e4 : Nat)
    (hpre : ∀ j ∈ pre, j.active = false)
    (hpost : ∀ j ∈ post, j.active = false)
    (hact : job.active = true)
    (haction : job.action = CronAction.SetPinState)
    (hmatch : cronMatch tmOf job e1 = true)
    (hdg : deviceGet gpio job.pin = some ex)
    (hw1 : m ≤ e1) (hw2 : e1 ≤ e2) (hw3 : e2 ≤ e3) (hw4 : e3 ≤ e4)
    (hw5 : e4 ≤ m + CRON_EXEC_WINDOW_SEC) (hU : m + CRON_EXEC_WINDOW_SEC < U32) :
    (∃ (stF : CronState) (effs : List Eff),
      runTicks tmOf readFn a0 [(ms1, e1), (ms2, e2), (ms3, e3), (ms4, e4)]
        ⟨lp, pre ++ job :: post, gpio⟩ = some (stF, effs)
      ∧ effs.count Eff.fired ≤ 1
      ∧ effs.count (Eff.setCall job.pin) ≤ 1)
    ∧ (sub32 ms1 lp ≥ 1000 →
      ∃ (stF : CronState) (effs : List Eff),
        runTicks tmOf readFn a0 [(ms1, e1), (ms2, e2), (ms3, e3), (ms4, e4)]
          ⟨lp, pre ++ job :: post, gpio⟩ = some (stF, effs)
        ∧ effs.count Eff.fired = 1
        ∧ effs.count (Eff.setCall job.pin) = 1
        ∧ stF.jobs = pre ++ { job with lastExecEpoch := e1 } :: post) := by
  constructor
  · have hwin : ∀ t ∈ [(ms1, e1), (ms2, e2), (ms3, e3), (ms4, e4)],
        m ≤ t.2 ∧ t.2 ≤ m + CRON_EXEC_WINDOW_SEC := by
      intro t ht
      simp only [List.mem_cons, List.not_mem_nil, or_false] at ht
      rcases ht with rfl | rfl | rfl | rfl <;> exact ⟨by omega, by omega⟩
    have hsort : List.Pairwise (fun a b : Nat × Nat => a.2 ≤ b.2)
        [(ms1, e1), (ms2, e2), (ms3, e3), (ms4, e4)] := by
      refine List.Pairwise.cons ?_ (List.Pairwise.cons ?_
        (List.Pairwise.cons ?_ (List.Pairwise.cons ?_ List.Pairwise.nil)))
      · intro b hb
        simp only [List.mem_cons, List.not_mem_nil, or_false] at hb
        rcases hb with rfl | rfl | rfl
        · exact hw2
        · exact le_trans hw2 hw3
        · exact le_trans (le_trans hw2 hw3) hw4
      · intro b hb
        simp only [List.mem_cons, List.not_mem_nil, or_false] at hb
        rcases hb with rfl | rfl
        · exact hw3
        · exact le_trans hw3 hw4
      · intro b hb
        simp only [List.mem_cons, List.not_mem_nil, or_false] at hb
        rcases hb with rfl
        exact hw4
      · intro b hb
        exact absurd hb (List.not_mem_nil b)
    exact c6_at_most_once_aux tmOf readFn a0 pre post job m hpre hpost hact
      haction hU [(ms1, e1), (ms2, e2), (ms3, e3), (ms4, e4)] lp gpio
      ⟨ex, hdg⟩ hwin hsort
  intro hthrottle
  have hpre' : ∀ j ∈ pre, (j.active && cronMatch tmOf j e1) = false :=
    fun j hj => by simp [hpre j hj]
  have hpost' : ∀ j ∈ post, (j.active && cronMatch tmOf j e1) = false :=
    fun j hj => by simp [hpost j hj]
  have hcond : (job.active && cronMatch tmOf job e1) = true := by
    simp [hact, hmatch]
  have hinner := runJobsAux_single_fire tmOf readFn a0 e1 pre post job gpio ex
    hpre' hpost' hcond haction hdg
  have htick1 : cronSchedulerLoop tmOf readFn a0 ms1 e1
      ⟨lp, pre ++ job :: post, gpio⟩ =
      some (⟨ms1, pre ++ { job with lastExecEpoch := e1 } :: post,
        (deviceSet readFn a0 gpio { ex with state := job.value }).2.1⟩,
        Eff.setCall job.pin ::
          ((deviceSet readFn a0 gpio { ex with state := job.value }).2.2 ++
            [Eff.fired])) := by
    rw [cronSchedulerLoop, if_pos hthrottle]
    simp only [hinner]
  have hnoop : ∀ ep, e1 ≤ ep → ep ≤ m + CRON_EXEC_WINDOW_SEC →
      ∀ j ∈ pre ++ { job with lastExecEpoch := e1 } :: post,
        (j.active && cronMatch tmOf j ep) = false := by
    intro ep hep1 hep2 j hj
    rcases List.mem_append.mp hj with hj1 | hj2
    · simp [hpre j hj1]
    rcases List.mem_cons.mp hj2 with rfl | hj3
    · have hrep : cronMatch tmOf { job with lastExecEpoch := e1 } ep = false := by
        apply cronMatch_replay_false
        show sub32 ep e1 ≤ CRON_EXEC_WINDOW_SEC
        rw [sub32_of_le hep1 (by omega)]
        omega
      simp [hrep]
    · simp [hpost j hj3]
  obtain ⟨lp2, htick2⟩ := tick_noop tmOf readFn a0 ms2 e2
    ⟨ms1, pre ++ { job with lastExecEpoch := e1 } :: post,
      (deviceSet readFn a0 gpio { ex with state := job.value }).2.1⟩
    (hnoop e2 hw2 (by omega))
  obtain ⟨lp3, htick3⟩ := tick_noop tmOf readFn a0 ms3 e3
    ⟨lp2, pre ++ { job with lastExecEpoch := e1 } :: post,
      (deviceSet readFn a0 gpio { ex with state := job.value }).2.1⟩
    (hnoop e3 (by omega) (by omega))
  obtain ⟨lp4, htick4⟩ := tick_noop tmOf readFn a0 ms4 e4
    ⟨lp3, pre ++ { job with lastExecEpoch := e1 } :: post,
      (deviceSet readFn a0 gpio { ex with state := job.value }).2.1⟩
    (hnoop e4 (by omega) (by omega))
  refine ⟨⟨lp4, pre ++ { job with lastExecEpoch := e1 } :: post,
      (deviceSet readFn a0 gpio { ex with state := job.value }).2.1⟩,
    (Eff.setCall job.pin ::
      ((deviceSet readFn a0 gpio { ex with state := job.value }).2.2 ++
        [Eff.fired])) ++ ([] ++ ([] ++ ([] ++ []))), ?_, ?_, ?_, rfl⟩
  · rw [runTicks]
    simp only [htick1]
    rw [runTicks]
    simp only [htick2]
    rw [runTicks]
    simp only [htick3]
    rw [runTicks]
    simp only [htick4]
    rw [runTicks]
  · rcases deviceSet_effs readFn a0 gpio { ex with state := job.value } with
      hdev | hdev <;> rw [hdev] <;> simp [List.count_cons, List.count_append]
  · rcases deviceSet_effs readFn a0 gpio { ex with state := job.value } with
      hdev | hdev <;> rw [hdev] <;> simp [List.count_cons, List.count_append]

/-- Witness for C6 (amended): one job, four in-window ticks, the first passing
the guard; both the at-most-once and the exactly-once parts are instantiated. -/
theorem c6_firing_bound_witness :
    ((⟨true, "* * * * *".data, CronAction.SetPinState, 4, 1, 0⟩ :
        CronJob).active = true ∧
     cronMatch (fun e => some ⟨(e % 60 : Nat), 2, 0, 1, 0, 1⟩)
       ⟨true, "* * * * *".data, CronAction.SetPinState, 4, 1, 0⟩ 120 = true ∧
     deviceGet ((List.range 18).map fun i => ⟨i, PinMode.Output, 0⟩) 4 =
       some ⟨4, PinMode.Output, 0⟩) ∧
    ((∃ (stF : CronState) (effs : List Eff),
      runTicks (fun e => some ⟨(e % 60 : Nat), 2, 0, 1, 0, 1⟩) (fun _ => 0) 0
        [(5000, 120), (6100, 120), (7200, 121), (8300, 122)]
        ⟨0, [] ++ (⟨true, "* * * * *".data, CronAction.SetPinState, 4, 1, 0⟩ :
          CronJob) :: [],
         (List.range 18).map fun i => ⟨i, PinMode.Output, 0⟩⟩ =
        some (stF, effs)
      ∧ effs.count Eff.fired ≤ 1
      ∧ effs.count (Eff.setCall 4) ≤ 1)
    ∧ (sub32 5000 0 ≥ 1000 →
      ∃ (stF : CronState) (effs : List Eff),
        runTicks (fun e => some ⟨(e % 60 : Nat), 2, 0, 1, 0, 1⟩) (fun _ => 0) 0
          [(5000, 120), (6100, 120), (7200, 121), (8300, 122)]
          ⟨0, [] ++ (⟨true, "* * * * *".data, CronAction.SetPinState, 4, 1, 0⟩ :
            CronJob) :: [],
           (List.range 18).map fun i => ⟨i, PinMode.Output, 0⟩⟩ =
          some (stF, effs)
        ∧ effs.count Eff.fired = 1
        ∧ effs.count (Eff.setCall 4) = 1
        ∧ stF.jobs = [] ++
            (⟨true, "* * * * *".data, CronAction.SetPinState, 4, 1, 120⟩ :
              CronJob) :: [])) :=
  ⟨⟨by decide, by decide, by decide⟩,
   c6_firing_bound (fun e => some ⟨(e % 60 : Nat), 2, 0, 1, 0, 1⟩)
     (fun _ => 0) 0 [] []
     ⟨true, "* * * * *".data, CronAction.SetPinState, 4, 1, 0⟩
     ⟨4, PinMode.Output, 0⟩
     ((List.range 18).map fun i => ⟨i, PinMode.Output, 0⟩) 0 120
     5000 120 6100 120 7200 121 8300 122
     (by decide) (by decide) (by decide) (by decide) (by decide) (by decide)
     (by decide) (by decide) (by decide) (by decide) (by decide) (by decide)⟩

/-! ## Claim C9: lemmas relating the field matcher to the spec grammar -/

/-- A digit character is not one of the characters `atol` treats specially. -/
lemma isDigitC_facts (c : Char) (h : isDigitC c = true) :
    isSpaceC c = false ∧ c ≠ '-' ∧ c ≠ '+' := by
  have h48 : 48 ≤ c.toNat ∧ c.toNat ≤ 57 := by
    unfold isDigitC at h
    simp only [Bool.and_eq_true, decide_eq_true_eq, Char.le_def] at h
    exact ⟨h.1, h.2⟩
  refine ⟨?_, ?_, ?_⟩
  · have h1 : c ≠ ' ' := fun he => by subst he; exact absurd h (by decide)
    have h2 : c ≠ '\t' := fun he => by subst he; exact absurd h (by decide)
    have h3 : c ≠ '\n' := fun he => by subst he; exact absurd h (by decide)
    have h4 : c ≠ '\x0b' := fun he => by subst he; exact absurd h (by decide)
    have h5 : c ≠ '\x0c' := fun he => by subst he; exact absurd h (by decide)
    have h6 : c ≠ '\r' := fun he => by subst he; exact absurd h (by decide)
    simp [isSpaceC, h1, h2, h3, h4, h5, h6]
  · exact fun he => by subst he; exact absurd h (by decide)
  · exact fun he => by subst he; exact absurd h (by decide)

/-- `parseDigitsAcc` folds an all-digit prefix and stops at the first
non-digit (or the end of the string). -/
lemma parseDigitsAcc_prefix :
    ∀ (ds tail : List Char) (acc : Int),
      (∀ c ∈ ds, isDigitC c = true) →
      (tail = [] ∨ ∃ c rest, tail = c :: rest ∧ isDigitC c = false) →
      parseDigitsAcc (ds ++ tail) acc =
        ds.foldl (fun a c => a * 10 + ((c.toNat : Int) - 48)) acc := by
  intro ds
  induction ds with
  | nil =>
    intro tail acc _ htail
    rcases htail with rfl | ⟨c, rest, rfl, hc⟩
    · rfl
    · show parseDigitsAcc (c :: rest) acc = acc
      rw [parseDigitsAcc, if_neg (by simp [hc])]
  | cons d ds' ih =>
    intro tail acc h htail
    show parseDigitsAcc (d :: (ds' ++ tail)) acc = _
    rw [parseDigitsAcc, if_pos (h d (List.mem_cons_self d ds')),
      ih tail _ (fun c hc => h c (List.mem_cons_of_mem d hc)) htail]
    rfl

/-- `atol` of a non-empty all-digit string is its decimal value. -/
lemma atol_digits (ds : List Char) (hne : ds ≠ [])
    (h : ∀ c ∈ ds, isDigitC c = true) : atol ds = decToInt ds := by
  obtain ⟨c, rest, rfl⟩ := List.exists_cons_of_ne_nil hne
  have hc := h c (List.mem_cons_self c rest)
  obtain ⟨hsp, hdash, hplus⟩ := isDigitC_facts c hc
  have hskip : skipSpaces (c :: rest) = c :: rest := by
    rw [skipSpaces, if_neg (by simp [hsp])]
  rw [atol]
  simp only [hskip]
  rw [if_neg hdash, if_neg hplus]
  have := parseDigitsAcc_prefix (c :: rest) [] 0 h (Or.inl rfl)
  simpa [decToInt] using this

/-- `atol` of an all-digit string followed by a dash and anything stops at the
dash. -/
lemma atol_digits_dash (ds tail : List Char) (hne : ds ≠ [])
    (h : ∀ c ∈ ds, isDigitC c = true) :
    atol (ds ++ '-' :: tail) = decToInt ds := by
  obtain ⟨c, rest, rfl⟩ := List.exists_cons_of_ne_nil hne
  have hc := h c (List.mem_cons_self c rest)
  obtain ⟨hsp, hdash, hplus⟩ := isDigitC_facts c hc
  have hskip : skipSpaces (c :: (rest ++ '-' :: tail)) =
      c :: (rest ++ '-' :: tail) := by
    rw [skipSpaces, if_neg (by simp [hsp])]
  show atol (c :: (rest ++ '-' :: tail)) = _
  rw [atol]
  simp only [hskip]
  rw [if_neg hdash, if_neg hplus]
  have := parseDigitsAcc_prefix (c :: rest) ('-' :: tail) 0 h
    (Or.inr ⟨'-', tail, rfl, by decide⟩)
  simpa [decToInt] using this

/-- A chunk split of a delimiter-free string is that string alone. -/
lemma splitChunks_not_mem (d : Char) :
    ∀ (l acc : List Char), d ∉ l →
      splitChunks d l acc = [acc.reverse ++ l] := by
  intro l
  induction l with
  | nil => intro acc _; simp [splitChunks]
  | cons c rest ih =>
    intro acc h
    rw [splitChunks,
      if_neg (show ¬(c = d) from fun he => h (he ▸ List.mem_cons_self c rest)),
      ih (c :: acc) (fun hm => h (List.mem_cons_of_mem c hm))]
    simp

/-- A chunk split cuts at the first delimiter occurrence. -/
lemma splitChunks_first (d : Char) :
    ∀ (a b acc : List Char), d ∉ a →
      splitChunks d (a ++ d :: b) acc =
        (acc.reverse ++ a) :: splitChunks d b [] := by
  intro a
  induction a with
  | nil => intro b acc _; simp [splitChunks]
  | cons c rest ih =>
    intro b acc h
    show splitChunks d (c :: (rest ++ d :: b)) acc = _
    rw [splitChunks,
      if_neg (show ¬(c = d) from fun he => h (he ▸ List.mem_cons_self c rest)),
      ih b (c :: acc) (fun hm => h (List.mem_cons_of_mem c hm))]
    simp

/-- A chunk split is never empty. -/
lemma splitChunks_ne_nil (d : Char) :
    ∀ (l acc : List Char), splitChunks d l acc ≠ [] := by
  intro l
  induction l with
  | nil => intro acc; simp [splitChunks]
  | cons c rest ih =>
    intro acc
    rw [splitChunks]
    split_ifs
    · simp
    · exact ih (c :: acc)

/-- `afterFirst` misses on a delimiter-free string. -/
lemma afterFirst_not_mem (d : Char) :
    ∀ (l : List Char), d ∉ l → afterFirst d l = none := by
  intro l
  induction l with
  | nil => intro _; rfl
  | cons c rest ih =>
    intro h
    rw [afterFirst,
      if_neg (show ¬(c = d) from fun he => h (he ▸ List.mem_cons_self c rest))]
    exact ih (fun hm => h (List.mem_cons_of_mem c hm))

/-- `afterFirst` returns the suffix after the first delimiter occurrence. -/
lemma afterFirst_first (d : Char) :
    ∀ (a b : List Char), d ∉ a → afterFirst d (a ++ d :: b) = some b := by
  intro a
  induction a with
  | nil => intro b _; simp [afterFirst]
  | cons c rest ih =>
    intro b h
    show afterFirst d (c :: (rest ++ d :: b)) = _
    rw [afterFirst,
      if_neg (show ¬(c = d) from fun he => h (he ▸ List.mem_cons_self c rest))]
    exact ih b (fun hm => h (List.mem_cons_of_mem c hm))

/-- Split a list at the first occurrence of an element. -/
lemma first_occ_split (d : Char) :
    ∀ (l : List Char), d ∈ l → ∃ a b, l = a ++ d :: b ∧ d ∉ a := by
  intro l
  induction l with
  | nil => intro h; exact absurd h (List.not_mem_nil d)
  | cons c rest ih =>
    intro h
    by_cases hc : c = d
    · subst hc
      exact ⟨[], rest, rfl, List.not_mem_nil c⟩
    · rcases List.mem_cons.mp h with he | hm
      · exact absurd he.symm hc
      · obtain ⟨a, b, rfl, ha⟩ := ih hm
        exact ⟨c :: a, b, rfl, fun hmem =>
          (List.mem_cons.mp hmem).elim (fun he => hc he.symm) ha⟩

/-- A one-chunk split means the string has no delimiter and is the chunk. -/
lemma splitAll_singleton (d : Char) (l n : List Char)
    (h : splitAll l d = [n]) : l = n ∧ d ∉ l := by
  by_cases hd : d ∈ l
  · obtain ⟨a, b, rfl, ha⟩ := first_occ_split d l hd
    rw [splitAll, splitChunks_first d a b [] ha] at h
    injection h with h1 h2
    exact absurd h2 (splitChunks_ne_nil d b [])
  · rw [splitAll, splitChunks_not_mem d l [] hd] at h
    injection h with h1 h2
    simp at h1
    exact ⟨h1, hd⟩

/-- A two-chunk split recovers the string around its single delimiter. -/
lemma splitAll_pair (d : Char) (l a2 b2 : List Char)
    (h : splitAll l d = [a2, b2]) :
    l = a2 ++ d :: b2 ∧ d ∉ a2 ∧ d ∉ b2 := by
  by_cases hd : d ∈ l
  · obtain ⟨a, b, rfl, ha⟩ := first_occ_split d l hd
    rw [splitAll, splitChunks_first d a b [] ha] at h
    injection h with h1 h2
    simp only [List.reverse_nil, List.nil_append] at h1
    subst h1
    by_cases hdb : d ∈ b
    · obtain ⟨a', b', rfl, ha'⟩ := first_occ_split d b hdb
      rw [splitChunks_first d a' b' [] ha'] at h2
      injection h2 with h3 h4
      exact absurd h4 (splitChunks_ne_nil d b' [])
    · rw [splitChunks_not_mem d b [] hdb] at h2
      injection h2 with h3 h4
      simp only [List.reverse_nil, List.nil_append] at h3
      subst h3
      exact ⟨rfl, ha, hdb⟩
  · rw [splitAll, splitChunks_not_mem d l [] hd] at h
    exact absurd h (by simp)

/-- `WFnum` unpacked. -/
lemma WFnum_spec {l : List Char} (h : WFnum l = true) :
    l ≠ [] ∧ ∀ c ∈ l, isDigitC c = true := by
  unfold WFnum at h
  simp only [Bool.and_eq_true, decide_eq_true_eq, List.all_eq_true] at h
  exact ⟨h.1, h.2⟩

/-- The element branch of `cronFieldMatch` agrees with the spec grammar on
well-formed elements. -/
lemma elem_match_eq_spec (e : List Char) (v : Int) (hwf : WFelem e = true) :
    (match afterFirst '-' e with
     | none => atol e == v
     | some afterDash => decide (atol e ≤ v) && decide (v ≤ atol afterDash)) =
      specElemMatch e v := by
  unfold WFelem at hwf
  unfold specElemMatch
  cases hsa : splitAll e '-' with
  | nil =>
    rw [hsa] at hwf
    exact Bool.noConfusion hwf
  | cons n rest =>
    cases rest with
    | nil =>
      rw [hsa] at hwf
      have hwf' : WFnum n = true := hwf
      obtain ⟨hne', hdig⟩ := WFnum_spec hwf'
      obtain ⟨he, hnm⟩ := splitAll_singleton '-' e n hsa
      subst he
      simp [afterFirst_not_mem '-' e hnm, atol_digits e hne' hdig]
    | cons b2 rest2 =>
      cases rest2 with
      | nil =>
        rw [hsa] at hwf
        have hwf' : (WFnum n && WFnum b2) = true := hwf
        simp only [Bool.and_eq_true] at hwf'
        obtain ⟨hna, hda⟩ := WFnum_spec hwf'.1
        obtain ⟨hnb, hdb⟩ := WFnum_spec hwf'.2
        obtain ⟨he, hnma, hnmb⟩ := splitAll_pair '-' e n b2 hsa
        subst he
        simp [afterFirst_first '-' n b2 hnma,
          atol_digits_dash n b2 hna hda, atol_digits b2 hnb hdb]
      | cons z rest3 =>
        rw [hsa] at hwf
        exact Bool.noConfusion hwf

/-- A well-formed element is non-empty. -/
lemma WFelem_ne_nil {e : List Char} (h : WFelem e = true) : e ≠ [] := by
  intro he
  subst he
  exact absurd h (by decide)

/-- `cronFieldMatch` coincides with the spec-side grammar matcher on
well-formed fields that fit the 16-byte buffer. -/
lemma cronFieldMatch_eq_specFieldMatch (f : List Char) (v : Int)
    (hwf : WFfield f = true) (hlen : f.length ≤ 15) :
    cronFieldMatch f v = specFieldMatch f v := by
  by_cases hstar : f = ['*']
  · subst hstar
    rfl
  · unfold WFfield at hwf
    rw [Bool.or_eq_true] at hwf
    have hall : (splitAll f ',').all WFelem = true := by
      rcases hwf with hwf | hwf
      · exact absurd (of_decide_eq_true hwf) hstar
      · exact hwf
    rw [List.all_eq_true] at hall
    simp only [cronFieldMatch, specFieldMatch, if_neg hstar,
      List.take_of_length_le hlen]
    have hfilter : strtokSplit f ',' = splitAll f ',' := by
      unfold strtokSplit
      apply List.filter_eq_self.mpr
      intro e he
      exact decide_eq_true (WFelem_ne_nil (hall e he))
    rw [hfilter]
    have hcong : ∀ e ∈ splitAll f ',',
        (fun tok =>
          match afterFirst '-' tok with
          | none => atol tok == v
          | some afterDash =>
            decide (atol tok ≤ v) && decide (v ≤ atol afterDash)) e =
        (fun tok => specElemMatch tok v) e := by
      intro e he
      exact elem_match_eq_spec e v (hall e he)
    revert hcong
    generalize splitAll f ',' = es
    intro hcong
    induction es with
    | nil => rfl
    | cons x xs ih =>
      simp only [List.any_cons, hcong x (List.mem_cons_self x xs),
        ih (fun y hy => hcong y (List.mem_cons_of_mem x hy))]

/-- A true `cronMatch` forces all five leading field matches. -/
lemma cronMatch_true_fields (tmOf : Nat → Option Tm) (job : CronJob)
    (now : Nat) (t : Tm) (htm : tmOf now = some t)
    (h : cronMatch tmOf job now = true) :
    5 ≤ (strtokSplit (job.cron.take 31) ' ').length ∧
    cronFieldMatch ((strtokSplit (job.cron.take 31) ' ').getD 0 []) t.min = true ∧
    cronFieldMatch ((strtokSplit (job.cron.take 31) ' ').getD 1 []) t.hour = true ∧
    cronFieldMatch ((strtokSplit (job.cron.take 31) ' ').getD 2 []) t.mday = true ∧
    cronFieldMatch ((strtokSplit (job.cron.take 31) ' ').getD 3 [])
      (t.mon + 1) = true ∧
    cronFieldMatch ((strtokSplit (job.cron.take 31) ' ').getD 4 []) t.wday =
      true := by
  simp only [cronMatch, htm] at h
  by_cases hf : (strtokSplit (job.cron.take 31) ' ').length < 5
  · rw [if_pos hf] at h
    exact absurd h (by simp)
  · rw [if_neg hf] at h
    simp only [Bool.and_eq_true] at h
    obtain ⟨⟨⟨⟨⟨⟨h1, h2⟩, h3⟩, h4⟩, h5⟩, h6⟩, h7⟩ := h
    exact ⟨by omega, h1, h2, h3, h4, h5⟩

/-- Fewer than five tokens never match. -/
lemma cronMatch_few_tokens (tmOf : Nat → Option Tm) (job : CronJob)
    (now : Nat) (hf : (strtokSplit (job.cron.take 31) ' ').length < 5) :
    cronMatch tmOf job now = false := by
  unfold cronMatch
  cases tmOf now with
  | none => rfl
  | some t =>
    simp only
    rw [if_pos hf]

/-- C9 counterexample: a six-token expression matches a timestamp (its first
five fields are evaluated and the sixth token is ignored), refuting "any other
token count never matches". -/
theorem c9_six_token_expression_matches :
    (strtokSplit (("0 0 1 1 0 99".data).take 31) ' ').length = 6 ∧
    cronMatch (fun _ => some ⟨0, 0, 0, 1, 0, 0⟩)
      ⟨true, "0 0 1 1 0 99".data, CronAction.SetPinState, 4, 1, 0⟩ 600 =
      true := by decide

/-- C9 (amended): the matcher matches a timestamp only if the expression
splits on spaces into at least 5 tokens — fewer than 5 never match, while
tokens beyond the fifth are ignored rather than preventing a match — and only
if each of the first five fields matches its calendar component; on
well-formed fields of at most 15 characters (the matcher's per-field buffer),
field matching coincides exactly with the spec grammar: `*` matches
unconditionally, a bare integer matches only that exact value, a dash pair
`a-b` matches iff the value lies in the inclusive non-wrapping range `[a,b]`,
a comma list matches if any element matches, and lists and ranges mix — for
example `5,10-20` matches minute 15 but not minute 21. -/
theorem c9_matcher_grammar :
    (∀ (tmOf : Nat → Option Tm) (job : CronJob) (now : Nat),
      (strtokSplit (job.cron.take 31) ' ').length < 5 →
      cronMatch tmOf job now = false)
    ∧ (∀ (tmOf : Nat → Option Tm) (job : CronJob) (now : Nat) (t : Tm),
        tmOf now = some t → cronMatch tmOf job now = true →
        5 ≤ (strtokSplit (job.cron.take 31) ' ').length ∧
        cronFieldMatch ((strtokSplit (job.cron.take 31) ' ').getD 0 [])
          t.min = true ∧
        cronFieldMatch ((strtokSplit (job.cron.take 31) ' ').getD 1 [])
          t.hour = true ∧
        cronFieldMatch ((strtokSplit (job.cron.take 31) ' ').getD 2 [])
          t.mday = true ∧
        cronFieldMatch ((strtokSplit (job.cron.take 31) ' ').getD 3 [])
          (t.mon + 1) = true ∧
        cronFieldMatch ((strtokSplit (job.cron.take 31) ' ').getD 4 [])
          t.wday = true)
    ∧ (∀ (f : List Char) (v : Int), WFfield f = true → f.length ≤ 15 →
        cronFieldMatch f v = specFieldMatch f v)
    ∧ cronFieldMatch "5,10-20".data 15 = true
    ∧ cronFieldMatch "5,10-20".data 21 = false :=
  ⟨cronMatch_few_tokens,
   fun tmOf job now t htm h => cronMatch_true_fields tmOf job now t htm h,
   cronFieldMatch_eq_specFieldMatch,
   by decide, by decide⟩

/-- Witness for C9 applying the grammar equivalence at the mixed list/range
field of the claim. -/
theorem c9_matcher_grammar_witness :
    (WFfield "5,10-20".data = true ∧ ("5,10-20".data).length ≤ 15) ∧
    cronFieldMatch "5,10-20".data 15 = specFieldMatch "5,10-20".data 15 :=
  ⟨⟨by decide, by decide⟩,
   c9_matcher_grammar.2.2.1 "5,10-20".data 15 (by decide) (by decide)⟩

end EspFw
